import Mathlib

/-! weex-toolkit: bootstrap resolution, doctor merge and string similarity.

A shallow embedding of three parts of the repository:

* `src/lib/cli.js`: `prepare` (install / upgrade / repair resolution of the core
  module) and `cli` (dispatch to the source or compiled core entry point);
* `src/packages/@weex/plugins/doctor/lib/doctor.js`: `Doctor.mergeValidationResults`;
* `src/packages/@weex/core/src/toolbox/string-tools.ts`: `strSimilarity2Number`,
  `minimum` and `strSimilarity2Percent`.

Definitions come first, theorems follow.
-/

namespace WeexToolkit

/-! ## Definitions: doctor.js -/

namespace Doctor

/-- The message record of doctor.js lines 116-125 (the field is spelled `isWaring` in
the source). -/
structure ValidationMessage where
  message : String
  isError : Bool := false
  isWaring : Bool := false
deriving DecidableEq, Repr

/-- The result record of doctor.js lines 78-87. `type` is the numeric value of the
compiled const enum: 0 missing, 1 partial, 2 installed. -/
structure ValidationResult where
  type : Nat
  messages : List ValidationMessage
  statusInfo : Option String
deriving DecidableEq, Repr

/-- Enum value `0 /* missing */`. -/
def missing : Nat := 0

/-- Enum value `1 /* partial */`. -/
def partly : Nat := 1

/-- Enum value `2 /* installed */`. -/
def installed : Nat := 2

/-- One pass of the `switch` of doctor.js lines 55-71: the new value of `mergedType`
after looking at a result of type `t`. -/
def mergeStep (mergedType t : Nat) : Nat :=
  match t with
  | 2 => if mergedType = 0 then 1 else mergedType
  | 1 => 1
  | 0 => if mergedType = 2 then 1 else mergedType
  | _ => mergedType

/-- The loop state of `mergeValidationResults`: `mergedType` and `mergedMessages`. -/
structure MergeState where
  mergedType : Nat
  mergedMessages : List ValidationMessage
deriving DecidableEq, Repr

/-- The body of the `for (let result of results)` loop, doctor.js lines 54-73. -/
def mergeBody (st : MergeState) (result : ValidationResult) : MergeState :=
  { mergedType := mergeStep st.mergedType result.type
    mergedMessages := st.mergedMessages ++ result.messages }

/-- The function `Doctor.mergeValidationResults` of doctor.js lines 51-75. On an
empty array `results[0].type` raises a TypeError, rendered as `none`. -/
def mergeValidationResults (results : List ValidationResult) : Option ValidationResult :=
  match results with
  | [] => none
  | first :: _ =>
    let st := results.foldl mergeBody { mergedType := first.type, mergedMessages := [] }
    some { type := st.mergedType, messages := st.mergedMessages, statusInfo := first.statusInfo }

/-- The documented invariant of `ValidationResult` (doctor.js lines 79-80): the type is
`installed` only if no message is an error or a hint (warning). -/
def InstalledClean (r : ValidationResult) : Prop :=
  r.type = installed → ∀ m ∈ r.messages, m.isError = false ∧ m.isWaring = false

end Doctor

/-! ## Definitions: string-tools.ts -/

namespace StringTools

variable {α : Type} [DecidableEq α]

/-- A row `d[i]` of the distance table: a sparse JS array of numbers. An index that was
never assigned reads as `none` (JS `undefined`, which arithmetic turns into `NaN`). -/
abbrev Row := Nat → Option Nat

/-- The table `d` of `strSimilarity2Number`: a sparse JS array of rows; `none` is a row
that was never created. -/
abbrev Table := Nat → Option Row

/-- The initial value `let d = []`. -/
def emptyTable : Table := fun _ => none

/-- Statement `d[i] = []`. -/
def newRow (d : Table) (i : Nat) : Table :=
  fun k => if k = i then some (fun _ => none) else d k

/-- Statement `d[i][j] = v`. Assigning into a row that does not exist raises a TypeError,
rendered as `none`. -/
def write (d : Table) (i j : Nat) (v : Option Nat) : Option Table :=
  match d i with
  | none => none
  | some row => some (fun k => if k = i then some (fun l => if l = j then v else row l) else d k)

/-- Expression `d[i][j]`. Reading from a row that does not exist raises a TypeError
(outer `none`); an unassigned cell reads as `undefined` (inner `none`). -/
def read (d : Table) (i j : Nat) : Option (Option Nat) :=
  match d i with
  | none => none
  | some row => some (row j)

/-- JS `a < b` on numbers; any comparison with `undefined`/`NaN` is false. -/
def jsLt (a b : Option Nat) : Bool :=
  match a, b with
  | some x, some y => decide (x < y)
  | _, _ => false

/-- JS `a + k` for a number or `undefined`/`NaN` operand `a`. -/
def jsAdd (a : Option Nat) (k : Nat) : Option Nat := a.map (· + k)

/-- The function `minimum` of string-tools.ts lines 120-122:
`a < b ? (a < c ? a : c) : b < c ? b : c`. -/
def minimum (a b c : Option Nat) : Option Nat :=
  if jsLt a b then (if jsLt a c then a else c) else (if jsLt b c then b else c)

/-- The first loop, lines 82-85: `for (i = 0; i <= n; i++) { d[i] = []; d[i][0] = i }`. -/
def initRows (n : Nat) (d : Table) : Option Table :=
  (List.range (n + 1)).foldl (fun acc i => acc.bind fun d => write (newRow d i) i 0 (some i))
    (some d)

/-- The second loop, lines 86-88: `for (j = 0; j <= m; j++) { d[0][j] = j }`. -/
def initCols (m : Nat) (d : Option Table) : Option Table :=
  (List.range (m + 1)).foldl (fun acc j => acc.bind fun d => write d 0 j (some j)) d

/-- The body of the inner loop, lines 92-98, for given `i` and `j`. `s.charAt(i - 1)`
is `s[i - 1]?`, with `none` for the empty string returned out of range. -/
def fillCell (s t : List α) (i j : Nat) (d : Table) : Option Table := do
  let sTmp := s[i - 1]?
  let tTmp := t[j - 1]?
  let cost := if sTmp = tTmp then 0 else 1
  let up ← read d (i - 1) j
  let left ← read d i (j - 1)
  let diag ← read d (i - 1) (j - 1)
  write d i j (minimum (jsAdd up 1) (jsAdd left 1) (jsAdd diag cost))

/-- The inner loop, lines 91-99: `for (j = 1; j <= m; j++)`. -/
def fillRow (s t : List α) (i : Nat) (d : Option Table) : Option Table :=
  (List.range' 1 t.length).foldl (fun acc j => acc.bind (fillCell s t i j)) d

/-- The outer loop, lines 89-100: `for (i = 1; i <= n; i++)`. -/
def fillTable (s t : List α) (d : Option Table) : Option Table :=
  (List.range' 1 s.length).foldl (fun acc i => fillRow s t i acc) d

/-- The function `strSimilarity2Number` of string-tools.ts lines 71-102, on strings given
as lists of code units. The result is `none` when the JS function would raise or
return something that is not a number. -/
def strSimilarity2Number (s t : List α) : Option Nat :=
  let n := s.length
  let m := t.length
  if n = 0 then some m
  else if m = 0 then some n
  else
    match fillTable s t (initCols m (initRows n emptyTable)) with
    | none => none
    | some d => (read d n m).join

/-- The function `strSimilarity2Percent` of string-tools.ts lines 111-115, up to the
final formatting: the value `1 - d / l` with `l` the longer length, as an exact
rational. The result is `none` when `d` is not a number or `l` is `0` (JS `0 / 0` is
`NaN`). The rounding of floating point division and of `toFixed(4)` is not part of
this value. -/
def strSimilarity2Percent (s t : List α) : Option ℚ :=
  let l := if s.length > t.length then s.length else t.length
  match strSimilarity2Number s t with
  | none => none
  | some d => if l = 0 then none else some (1 - (d : ℚ) / (l : ℚ))

/-- The standard recursive definition of the Levenshtein distance: the distance to or
from the empty string is the other string's length; otherwise the least of deleting the
first character of `s`, inserting the first character of `t`, and substituting one for
the other (free when they are equal). -/
def levenshteinRec : List α → List α → Nat
  | [], t => t.length
  | s, [] => s.length
  | a :: s, b :: t =>
    min (levenshteinRec s (b :: t) + 1)
      (min (levenshteinRec (a :: s) t + 1) (levenshteinRec s t + if a = b then 0 else 1))
termination_by s t => s.length + t.length

/-- An alignment of `s` with `t` of cost `n`: a left-to-right script of deletions,
insertions and substitutions turning `s` into `t`, where replacing a character by
itself is free and every other step costs one. -/
inductive Aligned : List α → List α → Nat → Prop
  | nil : Aligned [] [] 0
  | del (a : α) {s t : List α} {n : Nat} : Aligned s t n → Aligned (a :: s) t (n + 1)
  | ins (b : α) {s t : List α} {n : Nat} : Aligned s t n → Aligned s (b :: t) (n + 1)
  | sub (a b : α) {s t : List α} {n : Nat} :
      Aligned s t n → Aligned (a :: s) (b :: t) (n + if a = b then 0 else 1)

/-- Cell `d[i][j]` exists and holds the number `v`. -/
def Holds (d : Table) (i j v : Nat) : Prop := ∃ row, d i = some row ∧ row j = some v

/-- The table entry the loops are meant to compute: the distance between the first `i`
characters of `s` and the first `j` characters of `t`. -/
def takeDistance (s t : List α) (i j : Nat) : Nat :=
  levenshteinRec (s.take i) (t.take j)

end StringTools

/-! ## Definitions: cli.js -/

namespace Cli

/-- An error value thrown by a collaborator, identified by its message. -/
abbrev Err := String

deriving instance DecidableEq for Except

/-- The constant `coreName` of cli.js line 24, also `env.coreName` and `config.coreName`. -/
def configCoreName : String := "@weex-cli/core"

/-- The values the local variable `coreName` of `prepare` takes: a string, or the array
`arg` that line 137 assigns to it. -/
inductive NameVal where
  | str (s : String)
  | arr (parts : List String)
deriving DecidableEq, Repr

/-- JS strict equality `===` between a value of `coreName` and a string: an array is
never strictly equal to a string. -/
def NameVal.strictEq (v : NameVal) (s : String) : Bool :=
  match v with
  | .str x => decide (x = s)
  | .arr _ => false

/-- A positional argument `argv._[k]` as the argument parser delivers it: a string, or a
number when the token on the command line is numeric (`repair 123` gives the number
`123`, not the string). -/
inductive ArgVal where
  | str (s : String)
  | num (q : ℚ)
deriving DecidableEq, Repr

/-- JS truthiness of a positional argument: the empty string and the number `0` are
falsy. -/
def ArgVal.truthy (a : ArgVal) : Bool :=
  match a with
  | .str s => decide (s ≠ "")
  | .num q => decide (q ≠ 0)

/-- The fields of the core's `package.json` that `prepare` looks at. A field that is
missing reads as `none` (`undefined`); the initial value `{}` has both missing. -/
structure PackageJson where
  name : Option String := none
  version : Option String := none
deriving DecidableEq, Repr

/-- The content of the module registry file `stores.json`. -/
abbrev Modules := List (String × String)

/-- The part of `coreData` (cli.js lines 41-45) that changes during a run. `argv = none`
is the initial placeholder `''`; the other fields are copies of `env`. -/
structure CoreData where
  modules : Modules := []
  argv : Option (List String) := none
deriving DecidableEq, Repr

/-- The JSON body of the registry answer, as far as `prepare` reads it. -/
structure Body where
  version : Option String
deriving DecidableEq, Repr

/-- The response object `latest` of `got.get`; `body = none` is a falsy body. -/
structure Response where
  body : Option Body
deriving DecidableEq, Repr

/-- The `console.log` lines of `prepare`. -/
inductive Msg where
  /-- Line 152, `Start repair ..., please wait ...`. -/
  | startRepair
  /-- Line 160, `Start installing Core, please wait ...`. -/
  | startInstalling
  /-- Line 182, `upgrading Core from <local> -> <remote> ...`. -/
  | upgradingFrom (localVersion remoteVersion : Option String)
  /-- Line 184, `Upgrading Core, please wait ...`. -/
  | upgradingWait
deriving DecidableEq, Repr

/-- What a run does to the outside world, in order. `debug(...)` lines are left out. -/
inductive Event where
  /-- A `console.log` of `prepare`. -/
  | log (m : Msg)
  /-- The call `got.get(registry + '/' + coreName + '/latest', ...)` of line 165. -/
  | registryGet
  /-- The call `confirm(...)` of line 176, with the versions it displays. -/
  | confirm (remoteVersion localVersion : Option String)
  /-- The call `install(coreName, coreVersion, {...})` of line 193. The options object
  (root, trash, force, registry) does not influence the control flow and is left out. -/
  | install (name : NameVal) (version : Option String)
  /-- The `console.error` of line 88. -/
  | consoleError (e : Err)
  /-- The call `tabtab.start()` of line 93. -/
  | tabtabStart
  /-- Lines 98-99: registering `ts-node` and requiring `<corePath>/src/cli/cli`. -/
  | requireSource
  /-- Line 100: `(new TSCli(coreData)).start()`. -/
  | startSource (ctx : CoreData)
  /-- Line 104: requiring `<corePath>/lib/cli/cli`. -/
  | requireCompiled
  /-- Line 105: `(new Cli(coreData)).start()`. -/
  | startCompiled (ctx : CoreData)
deriving DecidableEq, Repr

/-- Everything a run reads from outside: the parsed command line, the environment, the
files on disk and the answers of the collaborators (`got`, `semver`, and `confirm`,
`install` of `lib/utils`, none of which is under `src/`).

The two JSON files are given by their parsed content, `none` when `fse.existsSync`
is false; a file that exists but cannot be parsed makes `readJson` raise before
`prepare` decides anything and is not described by a `World`.
`command` is `argv._[0]`; it is only compared with `'repair'` and `'completion'`, so
a numeric command behaves like any other string. `repairModule` is `argv._[1]`:
`undefined`, a string or a number. -/
structure World where
  /-- Parsed `argv._[0]`. -/
  command : Option String
  /-- Parsed `argv._[1]`. -/
  repairModule : Option ArgVal
  /-- Truthiness of `argv.compiled`. -/
  wantsCompiled : Bool
  /-- Variable `process.env.WEEX_CORE_VERSION`. -/
  envCoreVersion : Option String
  /-- Content of `<corePath>/package.json`, when the file exists. -/
  corePackageJson : Option PackageJson
  /-- Content of `<moduleRoot>/stores.json`, when the file exists. -/
  modulesJson : Option Modules
  /-- Result of `fse.exists(corePath + '/src')`. -/
  srcExists : Bool
  /-- Outcome of the registry lookup: an error (failure, timeout) or the response. -/
  registry : Except Err (Option Response)
  /-- The function `semver.gt` on two strings; it raises on an invalid version. -/
  semverGt : String → String → Except Err Bool
  /-- Outcome of `confirm(...)`: the truthiness of the answer. -/
  confirm : Except Err Bool
  /-- Outcome of `install(...)`. -/
  install : Except Err Unit
  /-- Outcome of loading the source entry point (lines 98-99). -/
  loadSource : Except Err Unit
  /-- Outcome of constructing and starting the source cli (line 100). -/
  startSource : Except Err Unit
  /-- Outcome of loading the compiled entry point (line 104). -/
  loadCompiled : Except Err Unit
  /-- Outcome of constructing and starting the compiled cli (line 105). -/
  startCompiled : Except Err Unit
  /-- Outcome of `tabtab.start()`. -/
  tabtab : Except Err Unit

/-- The mutable state of a run: the shared `coreData` object and the events so far. -/
structure RunState where
  coreData : CoreData := {}
  events : List Event := []
deriving DecidableEq, Repr

/-- A computation that may raise: it returns a value or an error, and the state it
leaves behind (which survives a raised error, as in JS). -/
def Run (α : Type) : Type := RunState → Except Err α × RunState

/-- Return without effect. -/
def Run.pure {α : Type} (a : α) : Run α := fun st => (.ok a, st)

/-- Sequencing; a raised error skips the continuation. -/
def Run.bind {α β : Type} (x : Run α) (f : α → Run β) : Run β := fun st =>
  match x st with
  | (.ok a, st2) => f a st2
  | (.error e, st2) => (.error e, st2)

/-- JS `throw`. -/
def Run.throw {α : Type} (e : Err) : Run α := fun st => (.error e, st)

/-- JS `try { x } catch (error) { h error }`. -/
def Run.tryCatch {α : Type} (x : Run α) (h : Err → Run α) : Run α := fun st =>
  match x st with
  | (.ok a, st2) => (.ok a, st2)
  | (.error e, st2) => h e st2

instance : Monad Run where
  pure := Run.pure
  bind := Run.bind

instance : MonadExcept Err Run where
  throw := Run.throw
  tryCatch := Run.tryCatch

/-- Record an event. -/
def emit (ev : Event) : Run Unit := fun st => (.ok (), { st with events := st.events ++ [ev] })

/-- Await a collaborator whose outcome is given. -/
def await {α : Type} (r : Except Err α) : Run α := fun st => (r, st)

/-- Read the shared `coreData`. -/
def getCoreData : Run CoreData := fun st => (.ok st.coreData, st)

/-- Assignment `coreData['modules'] = m`. -/
def setModules (m : Modules) : Run Unit := fun st =>
  (.ok (), { st with coreData := { st.coreData with modules := m } })

/-- Assignment `coreData.argv = processArgv`. -/
def setArgv (a : List String) : Run Unit := fun st =>
  (.ok (), { st with coreData := { st.coreData with argv := some a } })

/-- JS truthiness of a value that is a string or `undefined`. -/
def truthy (v : Option String) : Bool :=
  match v with
  | some s => decide (s ≠ "")
  | none => false

/-- JS `v || d` for a string-or-undefined `v` and a string `d`. -/
def jsOr (v : Option String) (d : String) : String :=
  match v with
  | some s => if s ≠ "" then s else d
  | none => d

/-- The pieces of a character list around each occurrence of `sep`. -/
def splitChars (sep : Char) : List Char → List (List Char)
  | [] => [[]]
  | c :: cs =>
    if c = sep then [] :: splitChars sep cs
    else
      match splitChars sep cs with
      | [] => [[c]]
      | p :: ps => (c :: p) :: ps

/-- JS `s.split(sep)` for a one-character separator. -/
def jsSplit (s : String) (sep : Char) : List String :=
  (splitChars sep s.data).map String.mk

/-- JS `parts.join(sep)` for a one-character separator. -/
def jsJoin (parts : List String) (sep : Char) : String :=
  String.mk (List.intercalate [sep] (parts.map String.data))

/-- Lines 128-144 of `prepare`: the values of `coreName` and `coreVersion` after parsing
the repair argument `argv._[1]`. A truthy argument that is a number has no `split`
method, so line 130 raises a TypeError. -/
def repairTarget (repairModule : Option ArgVal) : Except Err (NameVal × Option String) :=
  match repairModule with
  | some a =>
    if a.truthy then
      match a with
      | .str s =>
        let arg := jsSplit s '@'
        if arg.length > 1 then
          -- coreVersion = arg.pop(); coreName = arg.join('@')
          .ok (.str (jsJoin arg.dropLast '@'), arg.getLast?)
        else
          -- coreName = arg; coreVersion = 'latest'
          .ok (.arr arg, some "latest")
      | .num _ => .error "TypeError: repairModule.split is not a function"
    else
      .ok (.str configCoreName, some "latest")
  | none => .ok (.str configCoreName, some "latest")

/-- The call `semver.gt(a, b)` on values that may be `undefined`: the library raises a
TypeError (`Invalid Version: undefined`) for an argument that is not a string. -/
def semverGtJs (w : World) (a b : Option String) : Except Err Bool :=
  match a, b with
  | some x, some y => w.semverGt x y
  | _, _ => .error "TypeError: Invalid Version: undefined"

/-- Lines 165-188 of `prepare`, the branch taken when the local metadata has a name
and a version: ask the registry, compare, and ask the user. It returns the values of
`coreVersion` and `needInstall` it leaves behind (`undefined` and `false` before). -/
def checkRegistry (w : World) (corePackageJson : PackageJson) : Run (Option String × Bool) := do
  emit .registryGet
  let latest ← await w.registry
  match latest with
  | some (Response.mk (some body)) =>
    -- if (latest.body.version) coreVersion = latest.body.version
    let coreVersion := if truthy body.version then body.version else none
    if ← await (semverGtJs w coreVersion corePackageJson.version) then
      emit (.confirm coreVersion corePackageJson.version)
      let result ← await w.confirm
      if result then
        emit (.log (.upgradingFrom corePackageJson.version coreVersion))
        emit (.log .upgradingWait)
        return (coreVersion, true)
      else
        return (coreVersion, false)
    else
      return (coreVersion, false)
  | _ => return (none, false)

/-- Lines 127-154 of `prepare`, the branch for `command === 'repair'`. It returns the
values of `coreName`, `coreVersion` and `needInstall`. -/
def repairBranch (w : World) : Run (NameVal × Option String × Bool) := do
  let (coreName, coreVersion) ← await (repairTarget w.repairModule)
  -- If repair module isn't the core module, pipe argv to the @weex-cli/core
  if !(coreName.strictEq configCoreName) then
    return (coreName, coreVersion, false)
  else
    emit (.log .startRepair)
    return (coreName, coreVersion, true)

/-- Lines 155-190 of `prepare`, the branch for every other command. It returns the
values of `coreName`, `coreVersion` and `needInstall`. -/
def normalBranch (w : World) (corePackageJson : PackageJson) :
    Run (NameVal × Option String × Bool) := do
  -- checking if there has weex-cli/core
  if !(truthy corePackageJson.name) || !(truthy corePackageJson.version) then
    let coreVersion := jsOr w.envCoreVersion "latest"
    emit (.log .startInstalling)
    return (.str configCoreName, some coreVersion, true)
  -- fetching if there has new version
  else
    let (coreVersion, needInstall) ← checkRegistry w corePackageJson
    return (.str configCoreName, coreVersion, needInstall)

/-- The function `prepare` of cli.js lines 114-201. The local variables start as
`corePackageJson = {}`, `coreVersion = undefined`, `coreName = config.coreName` and
`needInstall = false`; the two branches return the values they leave in the last three. -/
def prepare (w : World) (command : Option String) : Run Unit := do
  -- lines 121-123
  let corePackageJson : PackageJson := w.corePackageJson.getD {}
  -- lines 124-126
  if let some json := w.modulesJson then
    setModules json
  let (coreName, coreVersion, needInstall) ←
    if command = some "repair" then repairBranch w
    else normalBranch w corePackageJson
  -- lines 192-200
  if needInstall then
    emit (.install coreName coreVersion)
    await w.install

/-- Lines 91-111 of `cli`: hand over to the shell completion or to one of the two core
entry points. Only the compiled entry point is loaded inside a `try`. -/
def dispatch (w : World) (command : Option String) (devMode wantsCompiled : Bool) :
    Run Unit := do
  if command = some "completion" then
    -- Register complete command
    emit .tabtabStart
    await w.tabtab
  else
    if devMode && !wantsCompiled then
      -- hook into ts-node so we can run typescript on the fly
      emit .requireSource
      await w.loadSource
      emit (.startSource (← getCoreData))
      await w.startSource
    else
      try
        emit .requireCompiled
        await w.loadCompiled
        emit (.startCompiled (← getCoreData))
        await w.startCompiled
      catch _ =>
        -- await prepare(repair)
        pure ()

/-- The function `cli` of cli.js lines 75-112. -/
def cli (w : World) (processArgv : List String) : Run Unit := do
  -- check if we're running in dev mode
  let devMode := w.srcExists
  let wantsCompiled := w.wantsCompiled
  let command := w.command
  setArgv processArgv
  -- prepare for running cli
  try
    prepare w command
  catch error =>
    -- TODO: pipe error to solutions.
    emit (.consoleError error)
  dispatch w command devMode wantsCompiled

/-- The state before a run: `coreData` as built at lines 41-45, nothing done yet. -/
def initialState : RunState := {}

/-- The events of `prepare` run on its own from the initial state. -/
def prepareEvents (w : World) (command : Option String) : List Event :=
  (prepare w command initialState).2.events

/-- How `prepare` ends when run on its own: normally or with a raised error. -/
def prepareResult (w : World) (command : Option String) : Except Err Unit :=
  (prepare w command initialState).1

/-- The events of a whole `cli` run. -/
def cliEvents (w : World) (processArgv : List String) : List Event :=
  (cli w processArgv initialState).2.events

/-- How `cli` ends: normally, or with the error its promise is rejected with. -/
def cliResult (w : World) (processArgv : List String) : Except Err Unit :=
  (cli w processArgv initialState).1

/-- The resolution decisions of the spec. -/
inductive ResolutionDecision where
  | Skip
  | Install (name : NameVal) (version : Option String)
  | Upgrade (name : NameVal) (version : Option String)
  | RepairInstall (name : NameVal) (version : Option String)
deriving DecidableEq, Repr

/-- The decision a trace of `prepare` stands for: the installer call together with the
announcement printed right before it tells which branch set `needInstall`; a trace
without an installer call is `Skip`. -/
def decisionOf : List Event → ResolutionDecision
  | [] => .Skip
  | .log .startRepair :: .install n v :: _ => .RepairInstall n v
  | .log .startInstalling :: .install n v :: _ => .Install n v
  | .log .upgradingWait :: .install n v :: _ => .Upgrade n v
  | _ :: rest => decisionOf rest

/-- Whether the installer was called in a trace. -/
def installerInvoked (events : List Event) : Prop :=
  ∃ n v, Event.install n v ∈ events

/-- The number of installer calls in a trace. -/
def installCount (events : List Event) : Nat :=
  (events.filter (fun ev => match ev with | .install _ _ => true | _ => false)).length

/-- Parse a non-empty run of decimal digits. -/
def parseDigits (cs : List Char) : Option Nat :=
  if cs ≠ [] ∧ cs.all Char.isDigit then some (cs.foldl (fun n c => 10 * n + (c.toNat - 48)) 0)
  else none

/-- A stand-in for `semver.gt` used in the examples: it compares plain
`MAJOR.MINOR.PATCH` versions and raises on anything else. -/
def plainSemverGt (a b : String) : Except Err Bool :=
  match (splitChars '.' a.data).map parseDigits, (splitChars '.' b.data).map parseDigits with
  | [some a1, some a2, some a3], [some b1, some b2, some b3] =>
    .ok (decide (a1 > b1 ∨ (a1 = b1 ∧ (a2 > b2 ∨ (a2 = b2 ∧ a3 > b3)))))
  | _, _ => .error "TypeError: Invalid Version"

/-- A sample world: command `compile`, nothing installed, a registry that fails and
collaborators that succeed. The examples override the fields they are about. -/
def sampleWorld : World where
  command := some "compile"
  repairModule := none
  wantsCompiled := false
  envCoreVersion := none
  corePackageJson := none
  modulesJson := none
  srcExists := false
  registry := .error "RequestError: connect ETIMEDOUT"
  semverGt := plainSemverGt
  confirm := .ok true
  install := .ok ()
  loadSource := .ok ()
  startSource := .ok ()
  loadCompiled := .ok ()
  startCompiled := .ok ()
  tabtab := .ok ()

/-- Condition (a) of the install-trigger invariant: the command is `repair` and the
parsed target is the core package. -/
def RepairOfCore (w : World) (command : Option String) : Prop :=
  command = some "repair"
    ∧ ∃ version, repairTarget w.repairModule = .ok (.str configCoreName, version)

/-- Local core metadata is absent: there is neither a name nor a version (no
`package.json` at the core path, or one that has neither field). -/
def MetadataAbsent (w : World) : Prop :=
  truthy (w.corePackageJson.getD {}).name = false
    ∧ truthy (w.corePackageJson.getD {}).version = false

/-- Local core metadata is absent or incomplete: the name or the version is missing. -/
def MetadataIncomplete (w : World) : Prop :=
  truthy (w.corePackageJson.getD {}).name = false
    ∨ truthy (w.corePackageJson.getD {}).version = false

/-- Condition (c) of the install-trigger invariant: the registry returned a version
`r`, `semver.gt(r, local)` is true and the user confirmed. -/
def ConfirmedNewer (w : World) : Prop :=
  ∃ r v : String, w.registry = .ok (some { body := some { version := some r } })
    ∧ r ≠ "" ∧ (w.corePackageJson.getD {}).version = some v
    ∧ w.semverGt r v = .ok true ∧ w.confirm = .ok true

/-- A registry answer that carries no version: no response, a falsy body, or a body
whose `version` is missing or empty. -/
def LacksVersion (resp : Option Response) : Prop :=
  ∀ body, resp = some { body := some body } → truthy body.version = false

/-- The kinds of event `prepare` can produce, as opposed to the events of dispatch
(lines 91-111) and of the `catch` of line 88. -/
def Event.fromPrepare : Event → Bool
  | .log _ => true
  | .registryGet => true
  | .confirm _ _ => true
  | .install _ _ => true
  | _ => false

/-- The execution mode condition of line 96: `devMode && !wantsCompiled`. -/
def SourceMode (w : World) : Prop := w.srcExists = true ∧ w.wantsCompiled = false

instance (w : World) : Decidable (SourceMode w) := by
  unfold SourceMode
  exact inferInstance

/-- How a computation ends when started from the initial state. -/
def resultOf {α : Type} (x : Run α) : Except Err α := (x initialState).1

/-- The events of a computation started from the initial state. -/
def eventsOf {α : Type} (x : Run α) : List Event := (x initialState).2.events

/-- A computation that only appends events: it leaves `coreData` alone and neither its
outcome nor the events it adds depend on the state it starts from. -/
def Framed {α : Type} (x : Run α) : Prop :=
  ∀ st, x st = (resultOf x, { coreData := st.coreData, events := st.events ++ eventsOf x })

/-- Lines 127-200 of `prepare`: everything after the two file reads. -/
def resolveAndInstall (w : World) (command : Option String) : Run Unit :=
  (if command = some "repair" then repairBranch w
    else normalBranch w (w.corePackageJson.getD {})) >>= fun r =>
      if r.2.2 then (emit (.install r.1 r.2.1) >>= fun _ => await w.install) else pure ()

/-- The events and the outcome of `checkRegistry`, read off case by case. -/
def checkRegistrySummary (w : World) (pkg : PackageJson) :
    List Event × Except Err (Option String × Bool) :=
  match w.registry with
  | .error e => ([.registryGet], .error e)
  | .ok (some (Response.mk (some body))) =>
    let cv := if truthy body.version then body.version else none
    match semverGtJs w cv pkg.version with
    | .error e => ([.registryGet], .error e)
    | .ok false => ([.registryGet], .ok (cv, false))
    | .ok true =>
      match w.confirm with
      | .error e => ([.registryGet, .confirm cv pkg.version], .error e)
      | .ok false => ([.registryGet, .confirm cv pkg.version], .ok (cv, false))
      | .ok true =>
        ([.registryGet, .confirm cv pkg.version, .log (.upgradingFrom pkg.version cv),
          .log .upgradingWait], .ok (cv, true))
  | .ok _ => ([.registryGet], .ok (none, false))

/-- The events and the outcome of `prepare`, read off case by case. -/
def prepareSummary (w : World) (command : Option String) : List Event × Except Err Unit :=
  if command = some "repair" then
    match repairTarget w.repairModule with
    | .error e => ([], .error e)
    | .ok (coreName, coreVersion) =>
      if coreName.strictEq configCoreName then
        ([.log .startRepair, .install coreName coreVersion], w.install)
      else ([], .ok ())
  else
    if !(truthy (w.corePackageJson.getD {}).name)
        || !(truthy (w.corePackageJson.getD {}).version) then
      ([.log .startInstalling,
        .install (.str configCoreName) (some (jsOr w.envCoreVersion "latest"))], w.install)
    else
      match checkRegistrySummary w (w.corePackageJson.getD {}) with
      | (evs, .ok (v, true)) => (evs ++ [.install (.str configCoreName) v], w.install)
      | (evs, .ok (_, false)) => (evs, .ok ())
      | (evs, .error e) => (evs, .error e)

/-- The events of `dispatch`, read off case by case, for a given `coreData`. -/
def dispatchTrace (w : World) (ctx : CoreData) : List Event :=
  if w.command = some "completion" then [.tabtabStart]
  else if w.srcExists && !w.wantsCompiled then
    match w.loadSource with
    | .ok _ => [.requireSource, .startSource ctx]
    | .error _ => [.requireSource]
  else
    match w.loadCompiled with
    | .ok _ => [.requireCompiled, .startCompiled ctx]
    | .error _ => [.requireCompiled]

/-- The outcome of `dispatch`, read off case by case. -/
def dispatchResult (w : World) : Except Err Unit :=
  if w.command = some "completion" then w.tabtab
  else if w.srcExists && !w.wantsCompiled then
    match w.loadSource with
    | .ok _ => w.startSource
    | .error e => .error e
  else .ok ()

/-- The `coreData` object at the time of dispatch. -/
def dispatchContext (w : World) (processArgv : List String) : CoreData :=
  { modules := w.modulesJson.getD [], argv := some processArgv }

/-- The events of the `try`/`catch` around `prepare` (lines 83-89). -/
def guardedPrepareEvents (w : World) : List Event :=
  prepareEvents w w.command ++
    match prepareResult w w.command with
    | .ok _ => []
    | .error e => [.consoleError e]

end Cli

/-! ## Theorems: doctor.js -/

namespace Doctor

theorem foldl_mergeBody_messages (rs : List ValidationResult) (st : MergeState) :
    (rs.foldl mergeBody st).mergedMessages
      = st.mergedMessages ++ (rs.map (fun r => r.messages)).flatten := by
  induction rs generalizing st with
  | nil => simp
  | cons r rs ih => simp [List.foldl_cons, ih, mergeBody, List.append_assoc]

theorem mergeStep_installed_iff (m t : Nat) (hm : m ≤ 2) (ht : t ≤ 2) :
    mergeStep m t = 2 ↔ m = 2 ∧ t = 2 := by
  interval_cases m <;> interval_cases t <;> simp [mergeStep]

theorem mergeStep_missing_iff (m t : Nat) (hm : m ≤ 2) (ht : t ≤ 2) :
    mergeStep m t = 0 ↔ m = 0 ∧ t = 0 := by
  interval_cases m <;> interval_cases t <;> simp [mergeStep]

theorem mergeStep_le (m t : Nat) (hm : m ≤ 2) (ht : t ≤ 2) : mergeStep m t ≤ 2 := by
  interval_cases m <;> interval_cases t <;> simp [mergeStep]

theorem foldl_mergeBody_type (rs : List ValidationResult) (st : MergeState)
    (hst : st.mergedType ≤ 2) (hrs : ∀ r ∈ rs, r.type ≤ 2) :
    (rs.foldl mergeBody st).mergedType ≤ 2
    ∧ ((rs.foldl mergeBody st).mergedType = 2 ↔ st.mergedType = 2 ∧ ∀ r ∈ rs, r.type = 2)
    ∧ ((rs.foldl mergeBody st).mergedType = 0 ↔ st.mergedType = 0 ∧ ∀ r ∈ rs, r.type = 0) := by
  induction rs generalizing st with
  | nil => simp [hst]
  | cons r rs ih =>
    have hr : r.type ≤ 2 := hrs r (List.mem_cons_self _ _)
    have hrs2 : ∀ x ∈ rs, x.type ≤ 2 := fun x hx => hrs x (List.mem_cons_of_mem _ hx)
    have hstep : (mergeBody st r).mergedType ≤ 2 := mergeStep_le _ _ hst hr
    obtain ⟨h1, h2, h3⟩ := ih (mergeBody st r) hstep hrs2
    refine ⟨by simpa [List.foldl_cons] using h1, ?_, ?_⟩
    · rw [List.foldl_cons, h2]
      simp only [mergeBody, mergeStep_installed_iff _ _ hst hr, List.mem_cons,
        forall_eq_or_imp, and_assoc]
    · rw [List.foldl_cons, h3]
      simp only [mergeBody, mergeStep_missing_iff _ _ hst hr, List.mem_cons,
        forall_eq_or_imp, and_assoc]

/-- C9: for a non-empty list of results whose types are missing (0), partial (1) or
installed (2), `mergeValidationResults` returns a result whose type is installed iff
every input is installed, missing iff every input is missing, and partial otherwise;
whose messages are the inputs' messages concatenated in input order; and which
satisfies the documented invariant (installed only if no message is an error or a
warning) whenever every input satisfies it. -/
theorem mergeValidationResults_spec (results : List ValidationResult)
    (hne : results ≠ []) (htypes : ∀ r ∈ results, r.type ≤ 2) :
    ∃ merged, mergeValidationResults results = some merged
      ∧ (merged.type = installed ↔ ∀ r ∈ results, r.type = installed)
      ∧ (merged.type = missing ↔ ∀ r ∈ results, r.type = missing)
      ∧ (merged.type = partly ↔
          ¬ (∀ r ∈ results, r.type = installed) ∧ ¬ (∀ r ∈ results, r.type = missing))
      ∧ merged.messages = (results.map (fun r => r.messages)).flatten
      ∧ ((∀ r ∈ results, InstalledClean r) → InstalledClean merged) := by
  cases results with
  | nil => exact absurd rfl hne
  | cons first rest =>
    have hfirst : first.type ≤ 2 := htypes first (List.mem_cons_self _ _)
    obtain ⟨hle, hinst, hmiss⟩ :=
      foldl_mergeBody_type (first :: rest) { mergedType := first.type, mergedMessages := [] }
        hfirst htypes
    have hmsgs := foldl_mergeBody_messages (first :: rest)
      { mergedType := first.type, mergedMessages := [] }
    have hI : (List.foldl mergeBody { mergedType := first.type, mergedMessages := [] }
        (first :: rest)).mergedType = installed ↔ ∀ r ∈ first :: rest, r.type = installed := by
      rw [show installed = 2 from rfl, hinst]
      constructor
      · intro h; exact h.2
      · intro h; exact ⟨h first (List.mem_cons_self _ _), h⟩
    have hM : (List.foldl mergeBody { mergedType := first.type, mergedMessages := [] }
        (first :: rest)).mergedType = missing ↔ ∀ r ∈ first :: rest, r.type = missing := by
      rw [show missing = 0 from rfl, hmiss]
      constructor
      · intro h; exact h.2
      · intro h; exact ⟨h first (List.mem_cons_self _ _), h⟩
    refine ⟨_, rfl, hI, hM, ?_, ?_, ?_⟩
    · rw [← hI, ← hM]
      simp only [installed, missing, partly]
      omega
    · simpa using hmsgs
    · intro hclean hT m hm
      have hall := hI.mp hT
      rw [show (List.foldl mergeBody { mergedType := first.type, mergedMessages := [] }
          (first :: rest)).mergedMessages
            = ((first :: rest).map (fun r => r.messages)).flatten by simpa using hmsgs] at hm
      rw [List.mem_flatten] at hm
      obtain ⟨l, hl, hml⟩ := hm
      rw [List.mem_map] at hl
      obtain ⟨r, hr, rfl⟩ := hl
      exact hclean r hr (hall r hr) m hml

/-- Witness for C9: an installed result merged with a missing one is partial and
keeps both messages in order. -/
theorem mergeValidationResults_spec_witness :
    ∃ merged,
      mergeValidationResults
        [⟨2, [⟨"adb found", false, false⟩], none⟩, ⟨0, [⟨"no sdk", true, false⟩], none⟩]
        = some merged
      ∧ (merged.type = installed ↔
          ∀ r ∈ [(⟨2, [⟨"adb found", false, false⟩], none⟩ : ValidationResult),
                 ⟨0, [⟨"no sdk", true, false⟩], none⟩], r.type = installed)
      ∧ (merged.type = missing ↔
          ∀ r ∈ [(⟨2, [⟨"adb found", false, false⟩], none⟩ : ValidationResult),
                 ⟨0, [⟨"no sdk", true, false⟩], none⟩], r.type = missing)
      ∧ (merged.type = partly ↔
          ¬ (∀ r ∈ [(⟨2, [⟨"adb found", false, false⟩], none⟩ : ValidationResult),
                 ⟨0, [⟨"no sdk", true, false⟩], none⟩], r.type = installed)
          ∧ ¬ (∀ r ∈ [(⟨2, [⟨"adb found", false, false⟩], none⟩ : ValidationResult),
                 ⟨0, [⟨"no sdk", true, false⟩], none⟩], r.type = missing))
      ∧ merged.messages =
          ([(⟨2, [⟨"adb found", false, false⟩], none⟩ : ValidationResult),
            ⟨0, [⟨"no sdk", true, false⟩], none⟩].map (fun r => r.messages)).flatten
      ∧ ((∀ r ∈ [(⟨2, [⟨"adb found", false, false⟩], none⟩ : ValidationResult),
                 ⟨0, [⟨"no sdk", true, false⟩], none⟩], InstalledClean r)
          → InstalledClean merged) :=
  mergeValidationResults_spec _ (by simp) (by simp)

end Doctor

/-! ## Theorems: string-tools.ts -/

namespace StringTools

variable {α : Type} [DecidableEq α]

theorem levenshteinRec_nil_left (t : List α) : levenshteinRec [] t = t.length := by
  simp [levenshteinRec]

theorem levenshteinRec_nil_right (s : List α) : levenshteinRec s [] = s.length := by
  cases s <;> simp [levenshteinRec]

theorem levenshteinRec_cons_cons (a b : α) (s t : List α) :
    levenshteinRec (a :: s) (b :: t) =
      min (levenshteinRec s (b :: t) + 1)
        (min (levenshteinRec (a :: s) t + 1) (levenshteinRec s t + if a = b then 0 else 1)) := by
  rw [levenshteinRec]

theorem aligned_nil_left (t : List α) : Aligned [] t t.length := by
  induction t with
  | nil => exact Aligned.nil
  | cons b t ih => exact Aligned.ins b ih

theorem aligned_nil_right (s : List α) : Aligned s [] s.length := by
  induction s with
  | nil => exact Aligned.nil
  | cons a s ih => exact Aligned.del a ih

theorem aligned_levenshteinRec (s t : List α) : Aligned s t (levenshteinRec s t) := by
  induction s generalizing t with
  | nil => rw [levenshteinRec_nil_left]; exact aligned_nil_left t
  | cons a s ihs =>
    induction t with
    | nil => rw [levenshteinRec_nil_right]; exact aligned_nil_right (a :: s)
    | cons b t iht =>
      rw [levenshteinRec_cons_cons]
      rcases min_choice (levenshteinRec s (b :: t) + 1)
        (min (levenshteinRec (a :: s) t + 1) (levenshteinRec s t + if a = b then 0 else 1))
        with h | h
      · rw [h]; exact Aligned.del a (ihs (b :: t))
      · rw [h]
        rcases min_choice (levenshteinRec (a :: s) t + 1)
          (levenshteinRec s t + if a = b then 0 else 1) with h2 | h2
        · rw [h2]; exact Aligned.ins b iht
        · rw [h2]; exact Aligned.sub a b (ihs t)

theorem levenshteinRec_cons_le (a : α) (s t : List α) :
    levenshteinRec (a :: s) t ≤ levenshteinRec s t + 1 := by
  cases t with
  | nil => simp [levenshteinRec_nil_right]
  | cons b t => rw [levenshteinRec_cons_cons]; exact min_le_left _ _

theorem levenshteinRec_le_cons (b : α) (s t : List α) :
    levenshteinRec s (b :: t) ≤ levenshteinRec s t + 1 := by
  cases s with
  | nil => simp [levenshteinRec_nil_left]
  | cons a s =>
    rw [levenshteinRec_cons_cons]
    exact le_trans (min_le_right _ _) (min_le_left _ _)

theorem levenshteinRec_le_of_aligned {s t : List α} {n : Nat} (h : Aligned s t n) :
    levenshteinRec s t ≤ n := by
  induction h with
  | nil => simp [levenshteinRec_nil_left]
  | del a _ ih => exact le_trans (levenshteinRec_cons_le a _ _) (Nat.succ_le_succ ih)
  | ins b _ ih => exact le_trans (levenshteinRec_le_cons b _ _) (Nat.succ_le_succ ih)
  | sub a b _ ih =>
    rw [levenshteinRec_cons_cons]
    exact le_trans (le_trans (min_le_right _ _) (min_le_right _ _))
      (Nat.add_le_add_right ih _)

theorem aligned_snoc_del (a : α) {s t : List α} {n : Nat} (h : Aligned s t n) :
    Aligned (s ++ [a]) t (n + 1) := by
  induction h with
  | nil => exact Aligned.del a Aligned.nil
  | del c _ ih => exact Aligned.del c ih
  | ins c _ ih => exact Aligned.ins c ih
  | sub c e _ ih =>
    have := Aligned.sub c e ih
    rwa [Nat.add_right_comm] at this

theorem aligned_snoc_ins (b : α) {s t : List α} {n : Nat} (h : Aligned s t n) :
    Aligned s (t ++ [b]) (n + 1) := by
  induction h with
  | nil => exact Aligned.ins b Aligned.nil
  | del c _ ih => exact Aligned.del c ih
  | ins c _ ih => exact Aligned.ins c ih
  | sub c e _ ih =>
    have := Aligned.sub c e ih
    rwa [Nat.add_right_comm] at this

theorem aligned_snoc_sub (a b : α) {s t : List α} {n : Nat} (h : Aligned s t n) :
    Aligned (s ++ [a]) (t ++ [b]) (n + if a = b then 0 else 1) := by
  induction h with
  | nil => exact Aligned.sub a b Aligned.nil
  | del c _ ih =>
    have := Aligned.del c ih
    rwa [Nat.add_right_comm] at this
  | ins c _ ih =>
    have := Aligned.ins c ih
    rwa [Nat.add_right_comm] at this
  | sub c e _ ih =>
    have := Aligned.sub c e ih
    rwa [Nat.add_right_comm] at this

theorem aligned_reverse {s t : List α} {n : Nat} (h : Aligned s t n) :
    Aligned s.reverse t.reverse n := by
  induction h with
  | nil => exact Aligned.nil
  | del a _ ih => rw [List.reverse_cons]; exact aligned_snoc_del a ih
  | ins b _ ih => rw [List.reverse_cons]; exact aligned_snoc_ins b ih
  | sub a b _ ih => rw [List.reverse_cons, List.reverse_cons]; exact aligned_snoc_sub a b ih

theorem levenshteinRec_reverse (s t : List α) :
    levenshteinRec s.reverse t.reverse = levenshteinRec s t := by
  apply le_antisymm
  · exact levenshteinRec_le_of_aligned (aligned_reverse (aligned_levenshteinRec s t))
  · have := levenshteinRec_le_of_aligned
      (aligned_reverse (aligned_levenshteinRec s.reverse t.reverse))
    simpa using this

theorem levenshteinRec_snoc_snoc (a b : α) (s t : List α) :
    levenshteinRec (s ++ [a]) (t ++ [b]) =
      min (levenshteinRec s (t ++ [b]) + 1)
        (min (levenshteinRec (s ++ [a]) t + 1) (levenshteinRec s t + if a = b then 0 else 1)) := by
  rw [← levenshteinRec_reverse (s ++ [a]) (t ++ [b]), ← levenshteinRec_reverse s (t ++ [b]),
    ← levenshteinRec_reverse (s ++ [a]) t, ← levenshteinRec_reverse s t]
  simp only [List.reverse_append, List.reverse_cons, List.reverse_nil, List.nil_append,
    List.singleton_append]
  rw [levenshteinRec_cons_cons]

theorem levenshteinRec_comm (s t : List α) : levenshteinRec s t = levenshteinRec t s := by
  induction s generalizing t with
  | nil => rw [levenshteinRec_nil_left, levenshteinRec_nil_right]
  | cons a s ihs =>
    induction t with
    | nil => rw [levenshteinRec_nil_left, levenshteinRec_nil_right]
    | cons b t iht =>
      rw [levenshteinRec_cons_cons, levenshteinRec_cons_cons, ihs (b :: t), iht, ihs t]
      have hc : (if a = b then 0 else 1) = (if b = a then 0 else 1) := by
        by_cases h : a = b
        · simp [h]
        · have h2 : ¬ b = a := fun e => h e.symm
          simp [h, h2]
      rw [hc, ← min_assoc, ← min_assoc,
        min_comm (levenshteinRec (b :: t) s + 1) (levenshteinRec t (a :: s) + 1)]

theorem levenshteinRec_le_max (s t : List α) :
    levenshteinRec s t ≤ max s.length t.length := by
  induction s generalizing t with
  | nil => simp [levenshteinRec_nil_left]
  | cons a s ihs =>
    cases t with
    | nil => simp [levenshteinRec_nil_right]
    | cons b t =>
      rw [levenshteinRec_cons_cons]
      have h1 := ihs t
      have h2 : (if a = b then 0 else 1) ≤ 1 := by split <;> omega
      have h3 : min (levenshteinRec s (b :: t) + 1)
          (min (levenshteinRec (a :: s) t + 1) (levenshteinRec s t + if a = b then 0 else 1))
          ≤ levenshteinRec s t + if a = b then 0 else 1 :=
        le_trans (min_le_right _ _) (min_le_right _ _)
      simp only [List.length_cons]
      omega

theorem levenshteinRec_self (s : List α) : levenshteinRec s s = 0 := by
  induction s with
  | nil => simp [levenshteinRec_nil_left]
  | cons a s ih => rw [levenshteinRec_cons_cons, ih]; simp

theorem levenshteinRec_eq_zero_iff (s t : List α) : levenshteinRec s t = 0 ↔ s = t := by
  constructor
  · intro h
    induction s generalizing t with
    | nil =>
      rw [levenshteinRec_nil_left] at h
      exact (List.length_eq_zero.mp h).symm
    | cons a s ihs =>
      cases t with
      | nil => rw [levenshteinRec_nil_right] at h; simp at h
      | cons b t =>
        rw [levenshteinRec_cons_cons] at h
        have h3 : levenshteinRec s t + (if a = b then 0 else 1) = 0 := by
          rcases min_choice (levenshteinRec s (b :: t) + 1)
            (min (levenshteinRec (a :: s) t + 1) (levenshteinRec s t + if a = b then 0 else 1))
            with e | e
          · rw [e] at h; omega
          · rw [e] at h
            rcases min_choice (levenshteinRec (a :: s) t + 1)
              (levenshteinRec s t + if a = b then 0 else 1) with e2 | e2
            · rw [e2] at h; omega
            · rw [e2] at h; exact h
        have hab : a = b := by
          by_contra hne
          simp [hne] at h3
        have hst : levenshteinRec s t = 0 := by omega
        rw [hab, ihs t hst]
  · rintro rfl
    exact levenshteinRec_self s

/-- The recursive definition agrees with Mathlib's `levenshtein` at the default cost
(every insertion, deletion and proper substitution costs one). -/
theorem levenshteinRec_eq_levenshtein (s t : List α) :
    levenshteinRec s t = levenshtein Levenshtein.defaultCost s t := by
  induction s generalizing t with
  | nil =>
    rw [levenshteinRec_nil_left]
    induction t with
    | nil => simp
    | cons b t ih => rw [levenshtein_nil_cons, ← ih]; simp [Levenshtein.defaultCost]; omega
  | cons a s ihs =>
    induction t with
    | nil =>
      rw [levenshteinRec_nil_right, levenshtein_cons_nil, ← ihs [], levenshteinRec_nil_right]
      simp [Levenshtein.defaultCost]; omega
    | cons b t iht =>
      rw [levenshteinRec_cons_cons, levenshtein_cons_cons, ← ihs (b :: t), ← iht, ← ihs t]
      simp only [Levenshtein.defaultCost]
      rw [Nat.add_comm 1, Nat.add_comm 1, Nat.add_comm (if a = b then 0 else 1)]

theorem read_of_holds {d : Table} {i j v : Nat} (h : Holds d i j v) :
    read d i j = some (some v) := by
  obtain ⟨row, hrow, hv⟩ := h
  simp [read, hrow, hv]

theorem write_of_holds {d : Table} {i j0 v0 : Nat} (h : Holds d i j0 v0) (j : Nat)
    (v : Option Nat) : ∃ d2, write d i j v = some d2 := by
  obtain ⟨row, hrow, _⟩ := h
  unfold write
  rw [hrow]
  exact ⟨_, rfl⟩

theorem holds_write_same {d d2 : Table} {i j v : Nat} (h : write d i j (some v) = some d2) :
    Holds d2 i j v := by
  unfold write at h
  cases hrow : d i with
  | none => simp [hrow] at h
  | some row =>
    simp only [hrow, Option.some.injEq] at h
    subst h
    exact ⟨fun l => if l = j then some v else row l, by simp, by simp⟩

theorem holds_write_other {d d2 : Table} {i j : Nat} {v : Option Nat}
    (h : write d i j v = some d2) {i2 j2 v2 : Nat} (hne : i2 ≠ i ∨ j2 ≠ j)
    (hold : Holds d i2 j2 v2) : Holds d2 i2 j2 v2 := by
  unfold write at h
  cases hrow : d i with
  | none => simp [hrow] at h
  | some row =>
    simp only [hrow, Option.some.injEq] at h
    subst h
    obtain ⟨row2, hrow2, hv2⟩ := hold
    by_cases hi : i2 = i
    · subst hi
      have hj : j2 ≠ j := by
        rcases hne with h1 | h1
        · exact absurd rfl h1
        · exact h1
      rw [hrow] at hrow2
      cases hrow2
      exact ⟨fun l => if l = j then v else row l, by simp, by simp [hj, hv2]⟩
    · exact ⟨row2, by simp [hi, hrow2], hv2⟩

theorem foldl_range'_invariant {σ : Type} (f : σ → Nat → σ) (I : Nat → σ → Prop)
    (a k : Nat) (init : σ) (h0 : I 0 init)
    (hstep : ∀ q st, q < k → I q st → I (q + 1) (f st (a + q))) :
    I k ((List.range' a k).foldl f init) := by
  induction k with
  | zero => simpa using h0
  | succ k ih =>
    rw [List.range'_concat, List.foldl_append]
    simp only [List.foldl_cons, List.foldl_nil, one_mul]
    exact hstep k _ (Nat.lt_succ_self k)
      (ih (fun q st hq hI => hstep q st (Nat.lt_succ_of_lt hq) hI))

theorem minimum_some (x y z : Nat) :
    minimum (some x) (some y) (some z) = some (min x (min y z)) := by
  simp only [minimum, jsLt]
  by_cases h1 : x < y <;> by_cases h2 : x < z <;> by_cases h3 : y < z <;>
    simp [h1, h2, h3] <;> omega

theorem initRows_spec (n : Nat) :
    ∃ d, initRows n emptyTable = some d ∧ ∀ i ≤ n, Holds d i 0 i := by
  have key := foldl_range'_invariant
    (fun (acc : Option Table) i => acc.bind fun d => write (newRow d i) i 0 (some i))
    (fun q od => ∃ d, od = some d ∧ ∀ i < q, Holds d i 0 i) 0 (n + 1) (some emptyTable)
    ⟨emptyTable, rfl, fun i hi => absurd hi (Nat.not_lt_zero i)⟩
    (by
      rintro q st _ ⟨d, rfl, hd⟩
      have hw : ∃ d2, write (newRow d (0 + q)) (0 + q) 0 (some (0 + q)) = some d2 := by
        unfold write
        have hrow : newRow d (0 + q) (0 + q) = some (fun _ => none) := by simp [newRow]
        rw [hrow]
        exact ⟨_, rfl⟩
      obtain ⟨d2, hd2⟩ := hw
      refine ⟨d2, by simpa using hd2, ?_⟩
      intro i hi
      by_cases hiq : i = q
      · subst hiq
        have := holds_write_same hd2
        simpa using this
      · have hlt : i < q := by omega
        obtain ⟨r, hr, hv⟩ := hd i hlt
        have hold : Holds (newRow d (0 + q)) i 0 i := ⟨r, by simp [newRow, hiq, hr], hv⟩
        exact holds_write_other hd2 (Or.inl (by omega)) hold)
  obtain ⟨d, hd, hall⟩ := key
  refine ⟨d, ?_, fun i hi => hall i (Nat.lt_succ_of_le hi)⟩
  rw [initRows, List.range_eq_range']
  exact hd

theorem initCols_spec (n m : Nat) (d0 : Table) (h0 : ∀ i ≤ n, Holds d0 i 0 i) :
    ∃ d, initCols m (some d0) = some d ∧ (∀ i ≤ n, Holds d i 0 i) ∧ ∀ j ≤ m, Holds d 0 j j := by
  have key := foldl_range'_invariant
    (fun (acc : Option Table) j => acc.bind fun d => write d 0 j (some j))
    (fun q od => ∃ d, od = some d ∧ (∀ i ≤ n, Holds d i 0 i) ∧ ∀ j < q, Holds d 0 j j)
    0 (m + 1) (some d0)
    ⟨d0, rfl, h0, fun j hj => absurd hj (Nat.not_lt_zero j)⟩
    (by
      rintro q st _ ⟨d, rfl, hcol, hrow⟩
      obtain ⟨d2, hd2⟩ := write_of_holds (hcol 0 (Nat.zero_le n)) (0 + q) (some (0 + q))
      refine ⟨d2, by simpa using hd2, ?_, ?_⟩
      · intro i hi
        by_cases hc : i = 0 ∧ q = 0
        · obtain ⟨rfl, rfl⟩ := hc
          exact holds_write_same hd2
        · exact holds_write_other hd2 (by omega) (hcol i hi)
      · intro j hj
        by_cases hjq : j = q
        · subst hjq
          have := holds_write_same hd2
          simpa using this
        · exact holds_write_other hd2 (Or.inr (by omega)) (hrow j (by omega)))
  obtain ⟨d, hd, hcol, hrow⟩ := key
  refine ⟨d, ?_, hcol, fun j hj => hrow j (Nat.lt_succ_of_le hj)⟩
  rw [initCols, List.range_eq_range']
  exact hd

theorem takeDistance_zero_right (s t : List α) (i : Nat) (hi : i ≤ s.length) :
    takeDistance s t i 0 = i := by
  simp [takeDistance, levenshteinRec_nil_right, hi]

theorem takeDistance_zero_left (s t : List α) (j : Nat) (hj : j ≤ t.length) :
    takeDistance s t 0 j = j := by
  simp [takeDistance, levenshteinRec_nil_left, hj]

theorem takeDistance_succ_succ (s t : List α) (i j : Nat) (hi : i < s.length)
    (hj : j < t.length) :
    takeDistance s t (i + 1) (j + 1) =
      min (takeDistance s t i (j + 1) + 1)
        (min (takeDistance s t (i + 1) j + 1)
          (takeDistance s t i j + if s[i]? = t[j]? then 0 else 1)) := by
  have hs : s.take (i + 1) = s.take i ++ [s[i]] := by
    rw [List.take_succ, List.getElem?_eq_getElem hi]; rfl
  have ht : t.take (j + 1) = t.take j ++ [t[j]] := by
    rw [List.take_succ, List.getElem?_eq_getElem hj]; rfl
  have hc : (if s[i]? = t[j]? then 0 else 1) = (if s[i] = t[j] then 0 else 1) := by
    rw [List.getElem?_eq_getElem hi, List.getElem?_eq_getElem hj]
    simp
  unfold takeDistance
  rw [hc, hs, ht, levenshteinRec_snoc_snoc]

theorem fillCell_spec (s t : List α) (q p : Nat) (hq : q < s.length) (hp : p < t.length)
    (d : Table)
    (hup : Holds d q (p + 1) (takeDistance s t q (p + 1)))
    (hleft : Holds d (q + 1) p (takeDistance s t (q + 1) p))
    (hdiag : Holds d q p (takeDistance s t q p)) :
    ∃ d2, fillCell s t (1 + q) (1 + p) d = some d2
      ∧ Holds d2 (q + 1) (p + 1) (takeDistance s t (q + 1) (p + 1))
      ∧ ∀ i2 j2 v2, (i2 ≠ q + 1 ∨ j2 ≠ p + 1) → Holds d i2 j2 v2 → Holds d2 i2 j2 v2 := by
  obtain ⟨d2, hd2⟩ := write_of_holds hleft (p + 1)
    (some (takeDistance s t (q + 1) (p + 1)))
  have hfill : fillCell s t (1 + q) (1 + p) d = some d2 := by
    have e3 : 1 + q = q + 1 := by omega
    have e4 : 1 + p = p + 1 := by omega
    simp only [fillCell, e3, e4, Nat.add_sub_cancel, read_of_holds hup, read_of_holds hleft,
      read_of_holds hdiag, Option.bind_eq_bind, Option.some_bind, jsAdd, Option.map_some',
      minimum_some]
    rw [← takeDistance_succ_succ s t q p hq hp]
    exact hd2
  exact ⟨d2, hfill, holds_write_same hd2, fun i2 j2 v2 hne h => holds_write_other hd2 hne h⟩

theorem fillRow_spec (s t : List α) (q : Nat) (hq : q < s.length) (d0 : Table)
    (hcol : ∀ i ≤ s.length, Holds d0 i 0 i)
    (hdone : ∀ i ≤ q, ∀ j ≤ t.length, Holds d0 i j (takeDistance s t i j)) :
    ∃ d, fillRow s t (1 + q) (some d0) = some d
      ∧ (∀ i ≤ s.length, Holds d i 0 i)
      ∧ ∀ i ≤ q + 1, ∀ j ≤ t.length, Holds d i j (takeDistance s t i j) := by
  have key := foldl_range'_invariant
    (fun (acc : Option Table) j => acc.bind (fillCell s t (1 + q) j))
    (fun p od => ∃ d, od = some d ∧ (∀ i ≤ s.length, Holds d i 0 i)
      ∧ (∀ i ≤ q, ∀ j ≤ t.length, Holds d i j (takeDistance s t i j))
      ∧ ∀ j ≤ p, Holds d (q + 1) j (takeDistance s t (q + 1) j))
    1 t.length (some d0)
    ⟨d0, rfl, hcol, hdone, by
      intro j hj
      have hj0 : j = 0 := by omega
      subst hj0
      rw [takeDistance_zero_right s t (q + 1) hq]
      exact hcol (q + 1) hq⟩
    (by
      rintro p st hp ⟨d, rfl, hc, hd, hr⟩
      obtain ⟨d2, hd2, hnew, hkeep⟩ := fillCell_spec s t q p hq hp d
        (hd q (le_refl q) (p + 1) hp) (hr p (le_refl p)) (hd q (le_refl q) p (by omega))
      refine ⟨d2, by simpa using hd2, ?_, ?_, ?_⟩
      · intro i hi
        exact hkeep _ _ _ (Or.inr (by omega)) (hc i hi)
      · intro i hi j hj
        exact hkeep _ _ _ (Or.inl (by omega)) (hd i hi j hj)
      · intro j hj
        by_cases hjp : j = p + 1
        · subst hjp; exact hnew
        · exact hkeep _ _ _ (Or.inr hjp) (hr j (by omega)))
  obtain ⟨d, hd, hc, hdn, hr⟩ := key
  refine ⟨d, hd, hc, ?_⟩
  intro i hi j hj
  by_cases hiq : i = q + 1
  · subst hiq; exact hr j hj
  · exact hdn i (by omega) j hj

theorem fillTable_spec (s t : List α) (d0 : Table)
    (hcol : ∀ i ≤ s.length, Holds d0 i 0 i) (hrow : ∀ j ≤ t.length, Holds d0 0 j j) :
    ∃ d, fillTable s t (some d0) = some d
      ∧ ∀ i ≤ s.length, ∀ j ≤ t.length, Holds d i j (takeDistance s t i j) := by
  have key := foldl_range'_invariant
    (fun (acc : Option Table) i => fillRow s t i acc)
    (fun q od => ∃ d, od = some d ∧ (∀ i ≤ s.length, Holds d i 0 i)
      ∧ ∀ i ≤ q, ∀ j ≤ t.length, Holds d i j (takeDistance s t i j))
    1 s.length (some d0)
    ⟨d0, rfl, hcol, by
      intro i hi j hj
      have hi0 : i = 0 := by omega
      subst hi0
      rw [takeDistance_zero_left s t j hj]
      exact hrow j hj⟩
    (by
      rintro q st hq ⟨d, rfl, hc, hd⟩
      obtain ⟨d2, hd2, hc2, hd2all⟩ := fillRow_spec s t q hq d hc hd
      exact ⟨d2, hd2, hc2, hd2all⟩)
  obtain ⟨d, hd, _, hall⟩ := key
  exact ⟨d, hd, fun i hi j hj => hall i hi j hj⟩

/-- The table algorithm returns the recursively defined distance. -/
theorem strSimilarity2Number_eq_levenshteinRec (s t : List α) :
    strSimilarity2Number s t = some (levenshteinRec s t) := by
  unfold strSimilarity2Number
  by_cases hn : s.length = 0
  · have hs : s = [] := List.length_eq_zero.mp hn
    subst hs
    simp [levenshteinRec_nil_left]
  · by_cases hm : t.length = 0
    · have ht : t = [] := List.length_eq_zero.mp hm
      subst ht
      simp [hn, levenshteinRec_nil_right]
    · obtain ⟨d1, hd1, hcol1⟩ := initRows_spec s.length
      obtain ⟨d2, hd2, hcol2, hrow2⟩ := initCols_spec s.length t.length d1 hcol1
      obtain ⟨d3, hd3, hall⟩ := fillTable_spec s t d2 hcol2 hrow2
      have hfin := read_of_holds (hall s.length (le_refl _) t.length (le_refl _))
      simp only [hn, hm, if_false, hd1, hd2, hd3, hfin, Option.join]
      simp [takeDistance]

/-- C10: `strSimilarity2Number s t` returns the Levenshtein distance of `s` and `t` as
given by the standard recursive definition, which is the least cost of an alignment
(a script of single-character insertions, deletions and substitutions turning `s`
into `t`). With `s` or `t` empty it returns the other length. It is `0` iff
`s = t`, symmetric, at most `max |s| |t|`, and the ratio `1 - d / max |s| |t|` of
`strSimilarity2Percent` lies in `[0, 1]` unless both strings are empty. -/
theorem strSimilarity2Number_levenshtein (s t : List α) :
    strSimilarity2Number s t = some (levenshteinRec s t)
    ∧ Aligned s t (levenshteinRec s t)
    ∧ (∀ n, Aligned s t n → levenshteinRec s t ≤ n)
    ∧ (s = [] → strSimilarity2Number s t = some t.length)
    ∧ (t = [] → strSimilarity2Number s t = some s.length)
    ∧ (strSimilarity2Number s t = some 0 ↔ s = t)
    ∧ strSimilarity2Number s t = strSimilarity2Number t s
    ∧ (∀ d, strSimilarity2Number s t = some d → d ≤ max s.length t.length)
    ∧ ((s ≠ [] ∨ t ≠ []) →
        ∃ r : ℚ, strSimilarity2Percent s t = some r ∧ 0 ≤ r ∧ r ≤ 1) := by
  have hmain := strSimilarity2Number_eq_levenshteinRec s t
  refine ⟨hmain, aligned_levenshteinRec s t, fun n h => levenshteinRec_le_of_aligned h,
    ?_, ?_, ?_, ?_, ?_, ?_⟩
  · rintro rfl
    rw [hmain, levenshteinRec_nil_left]
  · rintro rfl
    rw [hmain, levenshteinRec_nil_right]
  · rw [hmain, Option.some.injEq]
    exact levenshteinRec_eq_zero_iff s t
  · rw [hmain, strSimilarity2Number_eq_levenshteinRec t s, levenshteinRec_comm]
  · intro d hd
    rw [hmain, Option.some.injEq] at hd
    rw [← hd]
    exact levenshteinRec_le_max s t
  · intro hne
    have hl : (if s.length > t.length then s.length else t.length) = max s.length t.length := by
      split <;> omega
    have hpos : 0 < max s.length t.length := by
      rcases hne with h | h
      · have := List.length_pos.mpr h
        omega
      · have := List.length_pos.mpr h
        omega
    have hle := levenshteinRec_le_max s t
    refine ⟨1 - (levenshteinRec s t : ℚ) / (max s.length t.length : ℕ), ?_, ?_, ?_⟩
    · unfold strSimilarity2Percent
      simp only [hmain, hl]
      have hne0 : max s.length t.length ≠ 0 := by omega
      simp [hne0]
    · have h1 : (levenshteinRec s t : ℚ) / (max s.length t.length : ℕ) ≤ 1 := by
        rw [div_le_one (by exact_mod_cast hpos)]
        exact_mod_cast hle
      linarith
    · have h0 : (0 : ℚ) ≤ (levenshteinRec s t : ℚ) / (max s.length t.length : ℕ) := by
        positivity
      linarith

/-- Witness for C10: `kitten` and `sitting`. -/
theorem strSimilarity2Number_levenshtein_witness :
    strSimilarity2Number "kitten".data "sitting".data = some 3
    ∧ ∃ r : ℚ, strSimilarity2Percent "kitten".data "sitting".data = some r
        ∧ 0 ≤ r ∧ r ≤ 1 :=
  ⟨by decide,
    (strSimilarity2Number_levenshtein "kitten".data "sitting".data).2.2.2.2.2.2.2.2
      (Or.inl (by decide))⟩

end StringTools

/-! ## Theorems: cli.js -/

namespace Cli

theorem framed_pure {α : Type} (a : α) : Framed (pure a : Run α) := by
  intro st
  simp [pure, Run.pure, resultOf, eventsOf, initialState]

theorem framed_emit (ev : Event) : Framed (emit ev) := by
  intro st
  simp [emit, resultOf, eventsOf, initialState]

theorem framed_await {α : Type} (r : Except Err α) : Framed (await r) := by
  intro st
  simp [await, resultOf, eventsOf, initialState]

theorem run_bind_ok {α β : Type} (x : Run α) (f : α → Run β) (st st2 : RunState) (a : α)
    (h : x st = (.ok a, st2)) : (x >>= f) st = f a st2 := by
  simp [bind, Run.bind, h]

theorem run_bind_error {α β : Type} (x : Run α) (f : α → Run β) (st st2 : RunState) (e : Err)
    (h : x st = (.error e, st2)) : (x >>= f) st = (.error e, st2) := by
  simp [bind, Run.bind, h]

theorem bind_run_of_ok {α β : Type} {x : Run α} {f : α → Run β} (hx : Framed x)
    (hf : ∀ a, Framed (f a)) {a : α} (hres : resultOf x = .ok a) (st : RunState) :
    (x >>= f) st = (resultOf (f a),
      { coreData := st.coreData, events := st.events ++ (eventsOf x ++ eventsOf (f a)) }) := by
  have h1 := hx st
  rw [hres] at h1
  rw [run_bind_ok x f _ _ a h1, hf a _, List.append_assoc]

theorem bind_run_of_error {α β : Type} {x : Run α} (f : α → Run β) (hx : Framed x)
    {e : Err} (hres : resultOf x = .error e) (st : RunState) :
    (x >>= f) st = (.error e,
      { coreData := st.coreData, events := st.events ++ eventsOf x }) := by
  have h1 := hx st
  rw [hres] at h1
  rw [run_bind_error x f _ _ e h1]

theorem resultOf_bind {α β : Type} {x : Run α} {f : α → Run β} (hx : Framed x)
    (hf : ∀ a, Framed (f a)) :
    resultOf (x >>= f) =
      match resultOf x with
      | .ok a => resultOf (f a)
      | .error e => .error e := by
  rcases hres : resultOf x with e | a
  · show ((x >>= f) initialState).1 = _
    rw [bind_run_of_error f hx hres]
  · show ((x >>= f) initialState).1 = _
    rw [bind_run_of_ok hx hf hres]

theorem eventsOf_bind {α β : Type} {x : Run α} {f : α → Run β} (hx : Framed x)
    (hf : ∀ a, Framed (f a)) :
    eventsOf (x >>= f) =
      eventsOf x ++
        match resultOf x with
        | .ok a => eventsOf (f a)
        | .error _ => [] := by
  rcases hres : resultOf x with e | a
  · show ((x >>= f) initialState).2.events = _
    rw [bind_run_of_error f hx hres]
    simp [initialState]
  · show ((x >>= f) initialState).2.events = _
    rw [bind_run_of_ok hx hf hres]
    simp [initialState]

theorem framed_bind {α β : Type} {x : Run α} {f : α → Run β} (hx : Framed x)
    (hf : ∀ a, Framed (f a)) : Framed (x >>= f) := by
  intro st
  rw [resultOf_bind hx hf, eventsOf_bind hx hf]
  rcases hres : resultOf x with e | a
  · rw [bind_run_of_error f hx hres]
    simp
  · rw [bind_run_of_ok hx hf hres]

theorem checkRegistry_framed (w : World) (pkg : PackageJson) : Framed (checkRegistry w pkg) := by
  unfold checkRegistry
  refine framed_bind (framed_emit _) (fun _ => framed_bind (framed_await _) (fun latest => ?_))
  rcases latest with _ | ⟨_ | body⟩
  · exact framed_pure _
  · exact framed_pure _
  · refine framed_bind (framed_await _) (fun gt => ?_)
    cases gt
    · exact framed_pure _
    · refine framed_bind (framed_emit _) (fun _ => framed_bind (framed_await _) (fun r => ?_))
      cases r
      · exact framed_pure _
      · exact framed_bind (framed_emit _) (fun _ => framed_bind (framed_emit _)
          (fun _ => framed_pure _))

theorem repairBranch_framed (w : World) : Framed (repairBranch w) := by
  unfold repairBranch
  refine framed_bind (framed_await _) (fun r => ?_)
  rcases r with ⟨n, v⟩
  rcases hs : n.strictEq configCoreName
  · simp only [hs]
    exact framed_pure _
  · simp only [hs]
    exact framed_bind (framed_emit _) (fun _ => framed_pure _)

theorem normalBranch_framed (w : World) (pkg : PackageJson) : Framed (normalBranch w pkg) := by
  unfold normalBranch
  split
  · exact framed_bind (framed_emit _) (fun _ => framed_pure _)
  · exact framed_bind (checkRegistry_framed w pkg) (fun _ => framed_pure _)

theorem splitChars_ne_nil (sep : Char) (cs : List Char) : splitChars sep cs ≠ [] := by
  induction cs with
  | nil => simp [splitChars]
  | cons c cs ih =>
    unfold splitChars
    split
    · simp
    · split <;> simp

theorem splitChars_of_not_mem (sep : Char) (cs : List Char) (h : sep ∉ cs) :
    splitChars sep cs = [cs] := by
  induction cs with
  | nil => simp [splitChars]
  | cons c cs ih =>
    have hc : c ≠ sep := fun e => h (by simp [e])
    have hcs : sep ∉ cs := fun e => h (List.mem_cons_of_mem _ e)
    simp [splitChars, hc, ih hcs]

theorem splitChars_append_sep (sep : Char) (xs v : List Char) (h : sep ∉ v) :
    splitChars sep (xs ++ sep :: v) = splitChars sep xs ++ [v] := by
  induction xs with
  | nil => simp [splitChars, splitChars_of_not_mem sep v h]
  | cons c xs ih =>
    by_cases hc : c = sep
    · simp [splitChars, hc, ih]
    · rcases hsp : splitChars sep xs with _ | ⟨p, ps⟩
      · exact absurd hsp (splitChars_ne_nil sep xs)
      · simp [splitChars, hc, ih, hsp]

theorem intercalate_splitChars (sep : Char) (cs : List Char) :
    List.intercalate [sep] (splitChars sep cs) = cs := by
  induction cs with
  | nil => simp [splitChars, List.intercalate]
  | cons c cs ih =>
    by_cases hc : c = sep
    · rcases hsp : splitChars sep cs with _ | ⟨p, ps⟩
      · exact absurd hsp (splitChars_ne_nil sep cs)
      · rw [hsp] at ih
        simp only [splitChars, hc, if_true, hsp]
        simp only [List.intercalate, List.intersperse, List.flatten, List.nil_append,
          List.singleton_append] at ih ⊢
        rw [← ih]
    · rcases hsp : splitChars sep cs with _ | ⟨p, ps⟩
      · exact absurd hsp (splitChars_ne_nil sep cs)
      · rw [hsp] at ih
        simp only [splitChars, hc, if_false, hsp]
        rw [← ih]
        cases ps <;> simp [List.intercalate, List.intersperse, List.flatten]

theorem jsSplit_of_not_mem (s : String) (h : '@' ∉ s.data) : jsSplit s '@' = [s] := by
  simp [jsSplit, splitChars_of_not_mem '@' s.data h]

theorem jsSplit_append_at (name version : String) (h : '@' ∉ version.data) :
    jsSplit (name ++ "@" ++ version) '@' = jsSplit name '@' ++ [version] := by
  have hd : (name ++ "@" ++ version).data = name.data ++ '@' :: version.data := by
    simp [String.data_append]
  simp [jsSplit, hd, splitChars_append_sep '@' name.data version.data h]

theorem jsJoin_jsSplit (s : String) : jsJoin (jsSplit s '@') '@' = s := by
  simp [jsJoin, jsSplit, List.map_map, Function.comp_def, intercalate_splitChars]

theorem jsSplit_length_pos (s : String) : 0 < (jsSplit s '@').length := by
  have := splitChars_ne_nil '@' s.data
  simp [jsSplit, List.length_pos, this]

theorem append_at_ne_empty (name version : String) : name ++ "@" ++ version ≠ "" := by
  intro h
  have := congrArg String.data h
  simp [String.data_append] at this

/-- The repair target when no argument is given. -/
theorem repairTarget_none : repairTarget none = .ok (.str configCoreName, some "latest") := by
  simp [repairTarget]

/-- The repair target of `name@version`: the argument is cut at its last `@`. -/
theorem repairTarget_qualified (name version : String) (h : '@' ∉ version.data) :
    repairTarget (some (.str (name ++ "@" ++ version))) = .ok (.str name, some version) := by
  have hne := append_at_ne_empty name version
  have hlen := jsSplit_length_pos name
  simp only [repairTarget, ArgVal.truthy, hne, ne_eq, not_false_eq_true, decide_True, if_true,
    jsSplit_append_at name version h, List.length_append, List.length_singleton]
  have hgt : (jsSplit name '@').length + 1 > 1 := by omega
  simp [hgt, jsJoin_jsSplit]

/-- The repair target of a bare name without `@`: the array `[name]` and `latest`. -/
theorem repairTarget_bare (arg : String) (hne : arg ≠ "") (h : '@' ∉ arg.data) :
    repairTarget (some (.str arg)) = .ok (.arr [arg], some "latest") := by
  simp [repairTarget, ArgVal.truthy, hne, jsSplit_of_not_mem arg h]

/-- The repair target of a falsy argument (the empty string or the number `0`): the
core package and `latest`, as without an argument. -/
theorem repairTarget_falsy (a : ArgVal) (h : a.truthy = false) :
    repairTarget (some a) = .ok (.str configCoreName, some "latest") := by
  simp [repairTarget, h]

/-- A non-zero number as repair argument makes line 130 raise. -/
theorem repairTarget_number (q : ℚ) (h : q ≠ 0) :
    repairTarget (some (.num q)) = .error "TypeError: repairModule.split is not a function" := by
  simp [repairTarget, ArgVal.truthy, h]

theorem resolveAndInstall_framed (w : World) (command : Option String) :
    Framed (resolveAndInstall w command) := by
  unfold resolveAndInstall
  refine framed_bind ?_ (fun r => ?_)
  · split
    · exact repairBranch_framed w
    · exact normalBranch_framed w _
  · split
    · exact framed_bind (framed_emit _) (fun _ => framed_await _)
    · exact framed_pure _

theorem prepare_eq (w : World) (command : Option String) (st : RunState) :
    prepare w command st =
      resolveAndInstall w command
        { coreData := { modules := w.modulesJson.getD st.coreData.modules,
                        argv := st.coreData.argv },
          events := st.events } := by
  unfold prepare resolveAndInstall
  rcases hm : w.modulesJson with _ | m <;> by_cases hc : command = some "repair" <;>
    simp only [hc, if_true, if_false] <;> rfl

theorem prepare_run (w : World) (command : Option String) (st : RunState) :
    prepare w command st =
      (resultOf (resolveAndInstall w command),
        { coreData := { modules := w.modulesJson.getD st.coreData.modules,
                        argv := st.coreData.argv },
          events := st.events ++ eventsOf (resolveAndInstall w command) }) := by
  rw [prepare_eq, resolveAndInstall_framed w command]

theorem prepareEvents_eq (w : World) (command : Option String) :
    prepareEvents w command = eventsOf (resolveAndInstall w command) := by
  simp [prepareEvents, prepare_run, initialState]

theorem prepareResult_eq (w : World) (command : Option String) :
    prepareResult w command = resultOf (resolveAndInstall w command) := by
  simp [prepareResult, prepare_run]

theorem checkRegistry_summary (w : World) (pkg : PackageJson) :
    (eventsOf (checkRegistry w pkg), resultOf (checkRegistry w pkg))
      = checkRegistrySummary w pkg := by
  unfold checkRegistry checkRegistrySummary eventsOf resultOf
  rcases hr : w.registry with e | _ | ⟨_ | ⟨bv⟩⟩
  · simp [hr, bind, Run.bind, pure, Run.pure, emit, await, initialState]
  · simp [hr, bind, Run.bind, pure, Run.pure, emit, await, initialState]
  · simp [hr, bind, Run.bind, pure, Run.pure, emit, await, initialState]
  · rcases hcf : w.confirm with e | _ | _ <;>
    rcases hg : semverGtJs w (if truthy bv.version = true then bv.version else none) pkg.version
      with e | _ | _ <;>
    simp [hr, hcf, hg, bind, Run.bind, pure, Run.pure, emit, await, initialState]

theorem install_tail_framed (w : World) (r : NameVal × Option String × Bool) :
    Framed (if r.2.2 then (emit (.install r.1 r.2.1) >>= fun _ => await w.install)
      else (pure () : Run Unit)) := by
  split
  · exact framed_bind (framed_emit _) (fun _ => framed_await _)
  · exact framed_pure _

theorem install_tail_summary (w : World) (n : NameVal) (v : Option String) (b : Bool) :
    (eventsOf (if b then (emit (.install n v) >>= fun _ => await w.install)
        else (pure () : Run Unit)),
      resultOf (if b then (emit (.install n v) >>= fun _ => await w.install)
        else (pure () : Run Unit)))
      = if b then ([.install n v], w.install) else ([], .ok ()) := by
  cases b
  · simp [resultOf, eventsOf, pure, Run.pure, initialState]
  · simp [resultOf, eventsOf, bind, Run.bind, emit, await, initialState]

theorem repairBranch_summary (w : World) :
    (eventsOf (repairBranch w), resultOf (repairBranch w)) =
      match repairTarget w.repairModule with
      | .error e => ([], .error e)
      | .ok (coreName, coreVersion) =>
        (if coreName.strictEq configCoreName then [.log .startRepair] else [],
          .ok (coreName, coreVersion, coreName.strictEq configCoreName)) := by
  unfold repairBranch resultOf eventsOf
  rcases hr : repairTarget w.repairModule with e | ⟨n, v⟩
  · simp [hr, bind, Run.bind, await, initialState]
  · rcases hs : n.strictEq configCoreName <;>
      simp [hr, hs, bind, Run.bind, pure, Run.pure, emit, await, initialState]

theorem normalBranch_summary (w : World) (pkg : PackageJson) :
    (eventsOf (normalBranch w pkg), resultOf (normalBranch w pkg)) =
      if !(truthy pkg.name) || !(truthy pkg.version) then
        ([.log .startInstalling],
          .ok (.str configCoreName, some (jsOr w.envCoreVersion "latest"), true))
      else
        ((checkRegistrySummary w pkg).1,
          match (checkRegistrySummary w pkg).2 with
          | .ok (v, b) => .ok (.str configCoreName, v, b)
          | .error e => .error e) := by
  by_cases hc : (!(truthy pkg.name) || !(truthy pkg.version)) = true
  · unfold normalBranch resultOf eventsOf
    simp [hc, bind, Run.bind, pure, Run.pure, emit, initialState]
  · have hfr := checkRegistry_framed w pkg
    have hp : ∀ a : Option String × Bool, Framed
        (pure (NameVal.str configCoreName, a.1, a.2) : Run (NameVal × Option String × Bool)) :=
      fun a => framed_pure _
    have hsum := checkRegistry_summary w pkg
    have hnb : normalBranch w pkg = (checkRegistry w pkg >>= fun a =>
        (pure (NameVal.str configCoreName, a.1, a.2) : Run (NameVal × Option String × Bool))) := by
      unfold normalBranch
      simp only [hc, if_false, Bool.false_eq_true]
    rw [hnb, eventsOf_bind hfr hp, resultOf_bind hfr hp, ← hsum]
    simp only [hc, if_false, Bool.false_eq_true]
    rcases hres : resultOf (checkRegistry w pkg) with e | ⟨v, b⟩
    · simp
    · simp [resultOf, eventsOf, pure, Run.pure, initialState]

/-- The events and the outcome of `prepare` are those of the case-by-case summary. -/
theorem prepare_summary (w : World) (command : Option String) :
    (prepareEvents w command, prepareResult w command) = prepareSummary w command := by
  rw [prepareEvents_eq, prepareResult_eq]
  unfold resolveAndInstall prepareSummary
  by_cases hc : command = some "repair"
  · simp only [hc, if_true]
    rw [eventsOf_bind (repairBranch_framed w) (install_tail_framed w),
      resultOf_bind (repairBranch_framed w) (install_tail_framed w)]
    have hs := repairBranch_summary w
    rw [Prod.mk.injEq] at hs
    rw [hs.1, hs.2]
    rcases hr : repairTarget w.repairModule with e | ⟨n, v⟩
    · simp
    · have ht := install_tail_summary w n v (n.strictEq configCoreName)
      rw [Prod.mk.injEq] at ht
      simp only [ht.1, ht.2]
      rcases hs2 : n.strictEq configCoreName <;> simp
  · simp only [hc, if_false]
    rw [eventsOf_bind (normalBranch_framed w _) (install_tail_framed w),
      resultOf_bind (normalBranch_framed w _) (install_tail_framed w)]
    have hs := normalBranch_summary w (w.corePackageJson.getD {})
    rw [Prod.mk.injEq] at hs
    rw [hs.1, hs.2]
    by_cases hinc : (!(truthy (w.corePackageJson.getD {}).name)
        || !(truthy (w.corePackageJson.getD {}).version)) = true
    · have ht := install_tail_summary w (.str configCoreName)
        (some (jsOr w.envCoreVersion "latest")) true
      simp only [if_true, Prod.mk.injEq] at ht
      simp only [hinc, if_true, ht.1, ht.2]
      rfl
    · simp only [hinc, if_false, Bool.false_eq_true]
      rcases hsum : checkRegistrySummary w (w.corePackageJson.getD {}) with ⟨evs, e | ⟨v, b⟩⟩
      · simp
      · have ht := install_tail_summary w (.str configCoreName) v b
        rw [Prod.mk.injEq] at ht
        simp only [ht.1, ht.2]
        cases b <;> simp

theorem dispatch_run (w : World) (st : RunState) :
    dispatch w w.command w.srcExists w.wantsCompiled st =
      (dispatchResult w,
        { coreData := st.coreData, events := st.events ++ dispatchTrace w st.coreData }) := by
  unfold dispatch dispatchResult dispatchTrace
  by_cases hc : w.command = some "completion"
  · rcases ht : w.tabtab with e | _ <;>
      simp [hc, ht, bind, Run.bind, emit, await]
  · by_cases hm : (w.srcExists && !w.wantsCompiled) = true
    · rcases hl : w.loadSource with e | _ <;> rcases hs : w.startSource with e2 | _ <;>
        simp [hc, hm, hl, hs, bind, Run.bind, emit, await, getCoreData]
    · rcases hl : w.loadCompiled with e | _ <;> rcases hs : w.startCompiled with e2 | _ <;>
        simp [hc, hm, hl, hs, bind, Run.bind, emit, await, getCoreData, tryCatch,
          tryCatchThe, MonadExcept.tryCatch, Run.tryCatch, pure, Run.pure]

theorem cli_run (w : World) (processArgv : List String) :
    cli w processArgv initialState =
      (dispatchResult w,
        { coreData := dispatchContext w processArgv,
          events := guardedPrepareEvents w ++ dispatchTrace w (dispatchContext w processArgv) }) := by
  have hp := prepare_run w w.command
    { coreData := { modules := [], argv := some processArgv }, events := [] }
  rw [← prepareEvents_eq, ← prepareResult_eq] at hp
  unfold cli guardedPrepareEvents dispatchContext
  rcases hres : prepareResult w w.command with e | _
  · rw [hres] at hp
    simp [bind, Run.bind, setArgv, initialState, tryCatch, tryCatchThe, MonadExcept.tryCatch,
      Run.tryCatch, hp, emit, dispatch_run]
  · rw [hres] at hp
    simp [bind, Run.bind, setArgv, initialState, tryCatch, tryCatchThe, MonadExcept.tryCatch,
      Run.tryCatch, hp, emit, dispatch_run]

theorem cliEvents_eq (w : World) (processArgv : List String) :
    cliEvents w processArgv =
      guardedPrepareEvents w ++ dispatchTrace w (dispatchContext w processArgv) := by
  simp [cliEvents, cli_run]

theorem cliResult_eq (w : World) (processArgv : List String) :
    cliResult w processArgv = dispatchResult w := by
  simp [cliResult, cli_run]

theorem prepareEvents_summary (w : World) (command : Option String) :
    prepareEvents w command = (prepareSummary w command).1 :=
  congrArg Prod.fst (prepare_summary w command)

theorem prepareResult_summary (w : World) (command : Option String) :
    prepareResult w command = (prepareSummary w command).2 :=
  congrArg Prod.snd (prepare_summary w command)

/-- C1: on a normal run with complete local metadata (name and version `v`) and a
registry answer carrying a version `r`, the installer is called iff `semver.gt(r, v)`
is true and the confirmation returns true, and then it is called with
`(coreName, r)` (the Upgrade decision). When `semver.gt(r, v)` is false nothing but the
registry lookup happens, whatever the confirmation would answer: no prompt, no
installer (Skip). When it is true and the user declines, the prompt is the last
event (Skip). -/
theorem prepare_upgrade_iff (w : World) (command : Option String) (nm v r : String)
    (hcmd : command ≠ some "repair")
    (hmeta : w.corePackageJson = some { name := some nm, version := some v })
    (hnm : nm ≠ "") (hv : v ≠ "")
    (hreg : w.registry = .ok (some { body := some { version := some r } })) (hr : r ≠ "") :
    (installerInvoked (prepareEvents w command)
        ↔ w.semverGt r v = .ok true ∧ w.confirm = .ok true)
    ∧ (w.semverGt r v = .ok true → w.confirm = .ok true →
        prepareEvents w command =
          [.registryGet, .confirm (some r) (some v),
            .log (.upgradingFrom (some v) (some r)), .log .upgradingWait,
            .install (.str configCoreName) (some r)]
        ∧ decisionOf (prepareEvents w command) = .Upgrade (.str configCoreName) (some r))
    ∧ (w.semverGt r v = .ok false →
        prepareEvents w command = [.registryGet]
        ∧ prepareResult w command = .ok ()
        ∧ decisionOf (prepareEvents w command) = .Skip)
    ∧ (w.semverGt r v = .ok true → w.confirm = .ok false →
        prepareEvents w command = [.registryGet, .confirm (some r) (some v)]
        ∧ prepareResult w command = .ok ()
        ∧ decisionOf (prepareEvents w command) = .Skip) := by
  have hE := prepareEvents_summary w command
  have hR := prepareResult_summary w command
  unfold prepareSummary checkRegistrySummary at hE hR
  simp only [hcmd, hmeta, hreg, if_false, Option.getD_some, truthy, ne_eq, hnm, hv, hr,
    not_false_eq_true, decide_True, Bool.not_true, Bool.or_self, Bool.false_eq_true,
    if_true, semverGtJs] at hE hR
  rcases hg : w.semverGt r v with e | _ | _ <;> rcases hcf : w.confirm with e2 | _ | _ <;>
    simp only [hg, hcf] at hE hR <;>
    simp [hE, hR, installerInvoked, decisionOf]

/-- Witness for C1 (scenario B): local `1.2.0`, registry `1.3.0`, user confirms. -/
theorem prepare_upgrade_iff_witness :
    prepareEvents
        { sampleWorld with
          corePackageJson := some { name := some "@weex-cli/core", version := some "1.2.0" }
          registry := .ok (some { body := some { version := some "1.3.0" } }) }
        (some "compile") =
      [.registryGet, .confirm (some "1.3.0") (some "1.2.0"),
        .log (.upgradingFrom (some "1.2.0") (some "1.3.0")), .log .upgradingWait,
        .install (.str configCoreName) (some "1.3.0")]
    ∧ decisionOf (prepareEvents
        { sampleWorld with
          corePackageJson := some { name := some "@weex-cli/core", version := some "1.2.0" }
          registry := .ok (some { body := some { version := some "1.3.0" } }) }
        (some "compile")) = .Upgrade (.str configCoreName) (some "1.3.0") :=
  (prepare_upgrade_iff
    { sampleWorld with
      corePackageJson := some { name := some "@weex-cli/core", version := some "1.2.0" }
      registry := .ok (some { body := some { version := some "1.3.0" } }) }
    (some "compile") "@weex-cli/core" "1.2.0" "1.3.0" (by decide) rfl (by decide) (by decide)
    rfl (by decide)).2.1 (by decide) rfl

/-- Scenario C: local `1.3.0`, registry `1.3.0`: only the lookup happens. -/
theorem prepare_equal_version_skips :
    prepareEvents
        { sampleWorld with
          corePackageJson := some { name := some "@weex-cli/core", version := some "1.3.0" }
          registry := .ok (some { body := some { version := some "1.3.0" } }) }
        (some "compile") = [.registryGet] := by
  decide

/-- C2: on a normal run with no `package.json` at the core path, `prepare` announces
the installation and calls the installer with `(coreName, v)`, where `v` is
`WEEX_CORE_VERSION` when that is set to a non-empty value and `latest` otherwise;
these are the only two events, so neither the registry nor the confirmation prompt
is used (the Install decision). `prepare` ends the way the installer ends. -/
theorem prepare_install_when_absent (w : World) (command : Option String)
    (hcmd : command ≠ some "repair") (habsent : w.corePackageJson = none) :
    prepareEvents w command =
      [.log .startInstalling,
        .install (.str configCoreName) (some (jsOr w.envCoreVersion "latest"))]
    ∧ decisionOf (prepareEvents w command) =
        .Install (.str configCoreName) (some (jsOr w.envCoreVersion "latest"))
    ∧ prepareResult w command = w.install
    ∧ Event.registryGet ∉ prepareEvents w command
    ∧ (∀ a b, Event.confirm a b ∉ prepareEvents w command)
    ∧ (w.envCoreVersion = none → jsOr w.envCoreVersion "latest" = "latest")
    ∧ (∀ x, w.envCoreVersion = some x → x ≠ "" → jsOr w.envCoreVersion "latest" = x)
    ∧ (w.envCoreVersion = some "" → jsOr w.envCoreVersion "latest" = "latest") := by
  have hE := prepareEvents_summary w command
  have hR := prepareResult_summary w command
  unfold prepareSummary at hE hR
  simp only [hcmd, habsent, if_false, Option.getD_none, truthy, Bool.not_false, Bool.or_self,
    if_true] at hE hR
  refine ⟨hE, ?_, hR, ?_, ?_, ?_, ?_, ?_⟩
  · rw [hE]; rfl
  · rw [hE]; simp
  · intro a b; rw [hE]; simp
  · intro h; simp [h, jsOr]
  · intro x h hx; simp [h, jsOr, hx]
  · intro h; simp [h, jsOr]

/-- Witness for C2 (scenario A): command `compile`, nothing installed,
`WEEX_CORE_VERSION` unset. -/
theorem prepare_install_when_absent_witness :
    prepareEvents sampleWorld (some "compile") =
      [.log .startInstalling, .install (.str configCoreName) (some "latest")] :=
  (prepare_install_when_absent sampleWorld (some "compile") (by decide) rfl).1

/-- C3: for command `repair`, in every world: without an argument the installer is
called with `(coreName, latest)`; with an argument `name@version` (cut at its last
`@`) it is called with `(coreName, version)` when `name` is the core identifier and
not at all when it is not (Skip). The registry and the confirmation prompt are never
used. -/
theorem prepare_repair (w : World) :
    (w.repairModule = none →
        prepareEvents w (some "repair") =
          [.log .startRepair, .install (.str configCoreName) (some "latest")]
        ∧ decisionOf (prepareEvents w (some "repair")) =
          .RepairInstall (.str configCoreName) (some "latest"))
    ∧ (∀ name version : String, w.repairModule = some (.str (name ++ "@" ++ version)) →
        '@' ∉ version.data →
        (name = configCoreName →
          prepareEvents w (some "repair") =
            [.log .startRepair, .install (.str configCoreName) (some version)]
          ∧ decisionOf (prepareEvents w (some "repair")) =
            .RepairInstall (.str configCoreName) (some version))
        ∧ (name ≠ configCoreName →
          prepareEvents w (some "repair") = []
          ∧ prepareResult w (some "repair") = .ok ()
          ∧ decisionOf (prepareEvents w (some "repair")) = .Skip))
    ∧ Event.registryGet ∉ prepareEvents w (some "repair")
    ∧ (∀ a b, Event.confirm a b ∉ prepareEvents w (some "repair")) := by
  have hE := prepareEvents_summary w (some "repair")
  have hR := prepareResult_summary w (some "repair")
  unfold prepareSummary at hE hR
  simp only [if_true] at hE hR
  refine ⟨?_, ?_, ?_, ?_⟩
  · intro h
    rw [h, repairTarget_none] at hE
    simp only [NameVal.strictEq, decide_True, if_true] at hE
    rw [hE]
    exact ⟨rfl, rfl⟩
  · intro name version h hat
    rw [h, repairTarget_qualified name version hat] at hE hR
    constructor
    · intro hname
      subst hname
      simp only [NameVal.strictEq, decide_True, if_true] at hE
      rw [hE]
      exact ⟨rfl, rfl⟩
    · intro hname
      simp only [NameVal.strictEq, hname, decide_False, Bool.false_eq_true, if_false] at hE hR
      rw [hE, hR]
      exact ⟨rfl, rfl, rfl⟩
  · rw [hE]
    rcases hr : repairTarget w.repairModule with e | ⟨n, v⟩
    · simp
    · rcases hs : n.strictEq configCoreName <;> simp [hs]
  · intro a b
    rw [hE]
    rcases hr : repairTarget w.repairModule with e | ⟨n, v⟩
    · simp
    · rcases hs : n.strictEq configCoreName <;> simp [hs]

/-- Witness for C3 (scenario D): `repair @weex-cli/core@2.0.0`. -/
theorem prepare_repair_witness :
    prepareEvents { sampleWorld with repairModule := some (.str "@weex-cli/core@2.0.0") }
        (some "repair") =
      [.log .startRepair, .install (.str configCoreName) (some "2.0.0")] :=
  (((prepare_repair
      { sampleWorld with repairModule := some (.str "@weex-cli/core@2.0.0") }).2.1
    "@weex-cli/core" "2.0.0" (by decide) (by decide)).1 rfl).1

/-- Example for C3: `repair other-module@2.1.0` leaves the core alone. -/
theorem prepare_repair_other_module :
    prepareEvents { sampleWorld with repairModule := some (.str "other-module@2.1.0") }
        (some "repair") = [] := by
  decide

/-- Counterexample to C4: `repair foo` does not decide `RepairInstall(coreName, latest)`;
the installer is not called at all. -/
theorem repair_bare_name_counterexample :
    ¬ (decisionOf (prepareEvents { sampleWorld with repairModule := some (.str "foo") }
          (some "repair")) = .RepairInstall (.str configCoreName) (some "latest"))
    ∧ prepareEvents { sampleWorld with repairModule := some (.str "foo") }
        (some "repair") = [] := by
  decide

/-- C4 (amended): for command `repair` with an argument that reaches `prepare` as a
non-empty string containing no `@`, the target name is taken from the argument (line
137 stores the one-element array `[arg]`) with version `latest`; it is not the core
identifier, and `prepare` does nothing: no event, normal end (Skip). Arguments that
the argument parser turns into a number are not strings and are not covered. -/
theorem prepare_repair_bare_name (w : World) (arg : String)
    (harg : w.repairModule = some (.str arg)) (hne : arg ≠ "") (hat : '@' ∉ arg.data) :
    repairTarget w.repairModule = .ok (.arr [arg], some "latest")
    ∧ prepareEvents w (some "repair") = []
    ∧ prepareResult w (some "repair") = .ok ()
    ∧ decisionOf (prepareEvents w (some "repair")) = .Skip := by
  have hE := prepareEvents_summary w (some "repair")
  have hR := prepareResult_summary w (some "repair")
  unfold prepareSummary at hE hR
  rw [harg, repairTarget_bare arg hne hat] at hE hR
  simp only [if_true, NameVal.strictEq, Bool.false_eq_true, if_false] at hE hR
  rw [harg, repairTarget_bare arg hne hat, hE, hR]
  exact ⟨rfl, rfl, rfl, rfl⟩

/-- Witness for C4 (amended): `repair foo`. -/
theorem prepare_repair_bare_name_witness :
    repairTarget (some (.str "foo")) = .ok (.arr ["foo"], some "latest")
    ∧ prepareEvents { sampleWorld with repairModule := some (.str "foo") }
        (some "repair") = [] :=
  have h := prepare_repair_bare_name
    { sampleWorld with repairModule := some (.str "foo") } "foo" rfl (by decide) (by decide)
  ⟨h.1, h.2.1⟩

/-- The bare core identifier `@weex-cli/core` is cut at its only `@`: the name is empty,
the version is `weex-cli/core`, and the installer is not called. -/
theorem prepare_repair_bare_core_identifier :
    repairTarget (some (.str "@weex-cli/core")) = .ok (.str "", some "weex-cli/core")
    ∧ prepareEvents { sampleWorld with repairModule := some (.str "@weex-cli/core") }
        (some "repair") = [] := by
  decide

/-- A repair argument that is a non-zero number (`repair 123`) makes `prepare` end with
the TypeError of line 130, before any event. -/
theorem prepare_repair_number_raises (w : World) (q : ℚ)
    (harg : w.repairModule = some (.num q)) (hq : q ≠ 0) :
    prepareEvents w (some "repair") = []
    ∧ prepareResult w (some "repair") =
        .error "TypeError: repairModule.split is not a function" := by
  have hE := prepareEvents_summary w (some "repair")
  have hR := prepareResult_summary w (some "repair")
  unfold prepareSummary at hE hR
  rw [harg, repairTarget_number q hq] at hE hR
  simp only [if_true] at hE hR
  exact ⟨hE, hR⟩

/-- A falsy repair argument (`repair 0`, or an empty string) is treated as no argument:
the core is installed at `latest`. -/
theorem prepare_repair_falsy_argument (w : World) (a : ArgVal)
    (harg : w.repairModule = some a) (hf : a.truthy = false) :
    prepareEvents w (some "repair") =
      [.log .startRepair, .install (.str configCoreName) (some "latest")] := by
  have hE := prepareEvents_summary w (some "repair")
  unfold prepareSummary at hE
  rw [harg, repairTarget_falsy a hf] at hE
  simp only [if_true, NameVal.strictEq, decide_True] at hE
  exact hE

/-- The two numeric arguments at work: `repair 123` raises, `repair 0` installs the
core. -/
theorem prepare_repair_numeric_examples :
    prepareResult { sampleWorld with repairModule := some (.num 123) } (some "repair") =
        .error "TypeError: repairModule.split is not a function"
    ∧ prepareEvents { sampleWorld with repairModule := some (.num 123) } (some "repair") = []
    ∧ prepareEvents { sampleWorld with repairModule := some (.num 0) } (some "repair") =
        [.log .startRepair, .install (.str configCoreName) (some "latest")] :=
  ⟨(prepare_repair_number_raises _ 123 rfl (by norm_num)).2,
    (prepare_repair_number_raises _ 123 rfl (by norm_num)).1,
    prepare_repair_falsy_argument _ (.num 0) rfl (by simp [ArgVal.truthy])⟩

/-- Counterexample to C5: with a `package.json` that has a name but no version, a normal
run calls the installer although the command is not `repair`, the metadata is not
absent and no newer version was confirmed. -/
theorem install_trigger_counterexample :
    ¬ (installerInvoked (prepareEvents
          { sampleWorld with corePackageJson := some { name := some "@weex-cli/core" } }
          (some "compile")) →
        RepairOfCore
            { sampleWorld with corePackageJson := some { name := some "@weex-cli/core" } }
            (some "compile")
          ∨ MetadataAbsent
            { sampleWorld with corePackageJson := some { name := some "@weex-cli/core" } }
          ∨ ConfirmedNewer
            { sampleWorld with corePackageJson := some { name := some "@weex-cli/core" } }) := by
  intro h
  have hinv : installerInvoked (prepareEvents
      { sampleWorld with corePackageJson := some { name := some "@weex-cli/core" } }
      (some "compile")) :=
    ⟨.str configCoreName, some "latest", by decide⟩
  rcases h hinv with h1 | h2 | h3
  · exact absurd h1.1 (by decide)
  · exact absurd h2.1 (by decide)
  · obtain ⟨r, v, hreg, _⟩ := h3
    exact absurd hreg (by simp [sampleWorld])

/-- C5 (amended): whenever `prepare` calls the installer, (a) the command is `repair`
and the target is the core package, or (b) the command is not `repair` and the local
metadata lacks a name or a version (missing file or incomplete file), or (c) the
command is not `repair`, the registry returned a version for which `semver.gt` against
the local version is true, and the user confirmed. The installer is called at most
once. -/
theorem prepare_install_trigger (w : World) (command : Option String) :
    (installerInvoked (prepareEvents w command) →
      RepairOfCore w command
        ∨ (command ≠ some "repair" ∧ MetadataIncomplete w)
        ∨ (command ≠ some "repair" ∧ ConfirmedNewer w))
    ∧ installCount (prepareEvents w command) ≤ 1 := by
  have hE := prepareEvents_summary w command
  unfold prepareSummary at hE
  by_cases hcmd : command = some "repair"
  · subst hcmd
    simp only [if_true] at hE
    rcases hr : repairTarget w.repairModule with e | ⟨n, v⟩
    · simp only [hr] at hE
      rw [hE]
      simp [installerInvoked, installCount]
    · simp only [hr] at hE
      rcases hs : n.strictEq configCoreName
      · simp only [hs, Bool.false_eq_true, if_false] at hE
        rw [hE]
        simp [installerInvoked, installCount]
      · simp only [hs, if_true] at hE
        rw [hE]
        refine ⟨fun _ => Or.inl ⟨rfl, v, ?_⟩, by simp [installCount]⟩
        rcases n with s | parts
        · simp only [NameVal.strictEq, decide_eq_true_eq] at hs
          subst hs
          exact hr
        · simp [NameVal.strictEq] at hs
  · simp only [hcmd, if_false] at hE
    by_cases hinc : (!(truthy (w.corePackageJson.getD {}).name)
        || !(truthy (w.corePackageJson.getD {}).version)) = true
    · simp only [hinc, if_true] at hE
      rw [hE]
      refine ⟨fun _ => Or.inr (Or.inl ⟨hcmd, ?_⟩), by simp [installCount]⟩
      unfold MetadataIncomplete
      simpa using hinc
    · simp only [hinc, Bool.false_eq_true, if_false] at hE
      unfold checkRegistrySummary at hE
      rcases hreg : w.registry with e | _ | ⟨_ | ⟨⟨bv⟩⟩⟩
      · simp only [hreg] at hE
        rw [hE]; simp [installerInvoked, installCount]
      · simp only [hreg] at hE
        rw [hE]; simp [installerInvoked, installCount]
      · simp only [hreg] at hE
        rw [hE]; simp [installerInvoked, installCount]
      · simp only [hreg] at hE
        rcases hg : semverGtJs w (if truthy bv = true then bv else none)
            (w.corePackageJson.getD {}).version with e | _ | _
        · simp only [hg] at hE
          rw [hE]; simp [installerInvoked, installCount]
        · simp only [hg] at hE
          rw [hE]; simp [installerInvoked, installCount]
        · rcases hcf : w.confirm with e | _ | _
          · simp only [hg, hcf] at hE
            rw [hE]; simp [installerInvoked, installCount]
          · simp only [hg, hcf] at hE
            rw [hE]; simp [installerInvoked, installCount]
          · simp only [hg, hcf] at hE
            rw [hE]
            refine ⟨fun _ => Or.inr (Or.inr ⟨hcmd, ?_⟩), by simp [installCount]⟩
            by_cases hbv : truthy bv = true
            · simp only [hbv, if_true] at hg
              rcases bv with _ | r
              · simp [truthy] at hbv
              · rcases hlv : (w.corePackageJson.getD {}).version with _ | v
                · rw [hlv] at hg
                  simp [semverGtJs] at hg
                · rw [hlv] at hg
                  simp only [semverGtJs] at hg
                  refine ⟨r, v, hreg, ?_, hlv, hg, hcf⟩
                  simpa [truthy] using hbv
            · simp only [hbv, Bool.false_eq_true, if_false] at hg
              simp [semverGtJs] at hg

/-- Witness for C5 (amended): a fresh install is covered by case (b). -/
theorem prepare_install_trigger_witness :
    RepairOfCore sampleWorld (some "compile")
      ∨ ((some "compile" : Option String) ≠ some "repair" ∧ MetadataIncomplete sampleWorld)
      ∨ ((some "compile" : Option String) ≠ some "repair" ∧ ConfirmedNewer sampleWorld) :=
  (prepare_install_trigger sampleWorld (some "compile")).1
    ⟨.str configCoreName, some "latest", by decide⟩

theorem prepareEvents_fromPrepare (w : World) (command : Option String) :
    ∀ ev ∈ prepareEvents w command, ev.fromPrepare = true := by
  rw [prepareEvents_summary]
  unfold prepareSummary checkRegistrySummary
  split_ifs
  · rcases hr : repairTarget w.repairModule with e | ⟨n, v⟩
    · simp
    · rcases hs : n.strictEq configCoreName <;> simp [hs, Event.fromPrepare]
  · simp [Event.fromPrepare]
  · rcases hreg : w.registry with e | _ | ⟨_ | ⟨⟨bv⟩⟩⟩
    · simp [Event.fromPrepare]
    · simp [Event.fromPrepare]
    · simp [Event.fromPrepare]
    · rcases hg : semverGtJs w (if truthy bv = true then bv else none)
          (w.corePackageJson.getD {}).version with e | _ | _
      · simp [hg, Event.fromPrepare]
      · simp [hg, Event.fromPrepare]
      · rcases hcf : w.confirm with e | _ | _ <;> simp [hg, hcf, Event.fromPrepare]

theorem prepareEvents_installCount_le (w : World) (command : Option String) :
    installCount (prepareEvents w command) ≤ 1 := by
  rw [prepareEvents_summary]
  unfold prepareSummary checkRegistrySummary
  split_ifs
  · rcases hr : repairTarget w.repairModule with e | ⟨n, v⟩
    · simp [installCount]
    · rcases hs : n.strictEq configCoreName <;> simp [hs, installCount]
  · simp [installCount]
  · rcases hreg : w.registry with e | _ | ⟨_ | ⟨⟨bv⟩⟩⟩
    · simp [installCount]
    · simp [installCount]
    · simp [installCount]
    · rcases hg : semverGtJs w (if truthy bv = true then bv else none)
          (w.corePackageJson.getD {}).version with e | _ | _
      · simp [hg, installCount]
      · simp [hg, installCount]
      · rcases hcf : w.confirm with e | _ | _ <;> simp [hg, hcf, installCount]

theorem guardedPrepareEvents_not_dispatch (w : World) :
    Event.tabtabStart ∉ guardedPrepareEvents w
    ∧ Event.requireSource ∉ guardedPrepareEvents w
    ∧ Event.requireCompiled ∉ guardedPrepareEvents w
    ∧ (∀ ctx, Event.startSource ctx ∉ guardedPrepareEvents w)
    ∧ (∀ ctx, Event.startCompiled ctx ∉ guardedPrepareEvents w) := by
  have h := prepareEvents_fromPrepare w w.command
  have key : ∀ ev, ev ∈ guardedPrepareEvents w →
      ev.fromPrepare = true ∨ ∃ e, ev = .consoleError e := by
    intro ev hev
    unfold guardedPrepareEvents at hev
    rw [List.mem_append] at hev
    rcases hev with h1 | h2
    · exact Or.inl (h ev h1)
    · rcases hres : prepareResult w w.command with e | _
      · simp only [hres, List.mem_singleton] at h2
        exact Or.inr ⟨e, h2⟩
      · simp [hres] at h2
  refine ⟨?_, ?_, ?_, ?_, ?_⟩
  · intro hm; rcases key _ hm with h1 | ⟨e, h2⟩
    · simp [Event.fromPrepare] at h1
    · cases h2
  · intro hm; rcases key _ hm with h1 | ⟨e, h2⟩
    · simp [Event.fromPrepare] at h1
    · cases h2
  · intro hm; rcases key _ hm with h1 | ⟨e, h2⟩
    · simp [Event.fromPrepare] at h1
    · cases h2
  · intro ctx hm; rcases key _ hm with h1 | ⟨e, h2⟩
    · simp [Event.fromPrepare] at h1
    · cases h2
  · intro ctx hm; rcases key _ hm with h1 | ⟨e, h2⟩
    · simp [Event.fromPrepare] at h1
    · cases h2

/-- The installer is called at most once in a whole `cli` run. -/
theorem cli_install_at_most_once (w : World) (processArgv : List String) :
    installCount (cliEvents w processArgv) ≤ 1 := by
  have h := prepareEvents_installCount_le w w.command
  have hd : installCount (dispatchTrace w (dispatchContext w processArgv)) = 0 := by
    unfold dispatchTrace installCount
    split_ifs
    · simp
    · rcases hl : w.loadSource with e | _ <;> simp
    · rcases hl : w.loadCompiled with e | _ <;> simp
  have hg : installCount (guardedPrepareEvents w) = installCount (prepareEvents w w.command) := by
    unfold guardedPrepareEvents installCount
    rcases hres : prepareResult w w.command with e | _ <;> simp
  have happ : ∀ a b : List Event, installCount (a ++ b) = installCount a + installCount b := by
    intro a b
    simp [installCount]
  rw [cliEvents_eq, happ, hd, hg]
  exact h

/-- Counterexample to C6: with complete local metadata and a registry lookup that fails,
`prepare` does not complete normally; it ends with the lookup's error. -/
theorem registry_failure_counterexample :
    ¬ (prepareResult
        { sampleWorld with
          corePackageJson := some { name := some "@weex-cli/core", version := some "1.3.0" } }
        (some "compile") = .ok ())
    ∧ prepareResult
        { sampleWorld with
          corePackageJson := some { name := some "@weex-cli/core", version := some "1.3.0" } }
        (some "compile") = .error "RequestError: connect ETIMEDOUT" := by
  decide

/-- C6 (amended): on a normal run with complete local metadata, a registry lookup that
fails and a lookup whose answer carries no version both leave the registry call as
the only event of `prepare`: no confirmation is requested and the installer is not
called. A failed lookup ends `prepare` with the lookup's error (not normally);
`cli` catches that error, prints it and goes on to dispatch. -/
theorem prepare_registry_failure (w : World) (processArgv : List String) (nm v : String)
    (hcmd : w.command ≠ some "repair")
    (hmeta : w.corePackageJson = some { name := some nm, version := some v })
    (hnm : nm ≠ "") (hv : v ≠ "") :
    (∀ e, w.registry = .error e →
        prepareEvents w w.command = [.registryGet]
        ∧ prepareResult w w.command = .error e
        ∧ cliEvents w processArgv =
            [.registryGet, .consoleError e] ++ dispatchTrace w (dispatchContext w processArgv)
        ∧ cliResult w processArgv = dispatchResult w)
    ∧ (∀ resp, w.registry = .ok resp → LacksVersion resp →
        prepareEvents w w.command = [.registryGet]) := by
  have hE := prepareEvents_summary w w.command
  have hR := prepareResult_summary w w.command
  unfold prepareSummary checkRegistrySummary at hE hR
  simp only [hcmd, hmeta, if_false, Option.getD_some, truthy, ne_eq, hnm, hv,
    not_false_eq_true, decide_True, Bool.not_true, Bool.or_self, Bool.false_eq_true] at hE hR
  constructor
  · intro e hreg
    simp only [hreg] at hE hR
    refine ⟨hE, hR, ?_, cliResult_eq w processArgv⟩
    rw [cliEvents_eq]
    unfold guardedPrepareEvents
    rw [hE, hR]
    rfl
  · intro resp hreg hlack
    rcases resp with _ | ⟨_ | ⟨⟨bv⟩⟩⟩
    · simp only [hreg] at hE
      exact hE
    · simp only [hreg] at hE
      exact hE
    · have hb : truthy bv = false := hlack ⟨bv⟩ rfl
      simp only [hreg] at hE
      rw [hE]
      rcases bv with _ | s
      · simp [semverGtJs]
      · have hs : s = "" := by simpa [truthy] using hb
        simp [hs, semverGtJs]

/-- Witness for C6 (amended): the sample registry fails with a timeout. -/
theorem prepare_registry_failure_witness :
    prepareEvents
        { sampleWorld with
          corePackageJson := some { name := some "@weex-cli/core", version := some "1.3.0" } }
        (some "compile") = [.registryGet]
    ∧ cliEvents
        { sampleWorld with
          corePackageJson := some { name := some "@weex-cli/core", version := some "1.3.0" } }
        ["node", "weex", "compile"] =
      [.registryGet, .consoleError "RequestError: connect ETIMEDOUT", .requireCompiled,
        .startCompiled { modules := [], argv := some ["node", "weex", "compile"] }] :=
  have h := (prepare_registry_failure
    { sampleWorld with
      corePackageJson := some { name := some "@weex-cli/core", version := some "1.3.0" } }
    ["node", "weex", "compile"] "@weex-cli/core" "1.3.0" (by decide) rfl (by decide)
    (by decide)).1 "RequestError: connect ETIMEDOUT" rfl
  ⟨h.1, h.2.2.1⟩

/-- An answer whose body has no `version` makes `semver.gt` raise on `undefined`:
`prepare` ends with that error after the lookup. -/
theorem prepare_missing_version_raises :
    prepareResult
        { sampleWorld with
          corePackageJson := some { name := some "@weex-cli/core", version := some "1.3.0" }
          registry := .ok (some { body := some { version := none } }) }
        (some "compile") = .error "TypeError: Invalid Version: undefined" := by
  decide

/-- C7 (failing input): in source mode an error raised while loading the source entry
point is not caught; `cli` ends with that error. -/
theorem cli_source_load_failure_propagates :
    cliResult
        { sampleWorld with srcExists := true
                           loadSource := .error "Error: Cannot find module ts-node" }
        ["node", "weex", "compile"] = .error "Error: Cannot find module ts-node" := by
  decide

/-- In compiled mode every error raised while loading or starting the compiled entry
point is caught: `cli` ends normally. -/
theorem cli_compiled_mode_catches (w : World) (processArgv : List String)
    (hc : w.command ≠ some "completion") (hm : ¬ SourceMode w) :
    cliResult w processArgv = .ok () := by
  rw [cliResult_eq]
  unfold dispatchResult
  have hb : (w.srcExists && !w.wantsCompiled) = false := by
    unfold SourceMode at hm
    rcases h1 : w.srcExists <;> rcases h2 : w.wantsCompiled <;> simp_all
  simp [hc, hb]

/-- In source mode an error raised while loading or starting the source entry point is
what `cli` ends with. -/
theorem cli_source_mode_propagates (w : World) (processArgv : List String) (e : Err)
    (hc : w.command ≠ some "completion") (hm : SourceMode w)
    (he : w.loadSource = .error e ∨ (w.loadSource = .ok () ∧ w.startSource = .error e)) :
    cliResult w processArgv = .error e := by
  rw [cliResult_eq]
  unfold dispatchResult
  have hb : (w.srcExists && !w.wantsCompiled) = true := by
    unfold SourceMode at hm
    simp [hm.1, hm.2]
  rcases he with h | ⟨h1, h2⟩
  · simp [hc, hb, h]
  · simp [hc, hb, h1, h2]

/-- C8: for a command other than `completion`, `cli` loads the source entry point iff
a source tree exists and `--compiled` was not given, and the compiled entry point iff
not; it never loads both, never starts the shell completion, and an entry point that
loads is started with the `coreData` whose `argv` is the argument vector passed to
`cli`. For `completion` the shell completion is started and no entry point is
loaded or started. -/
theorem cli_mode_selection (w : World) (processArgv : List String) :
    (w.command ≠ some "completion" →
      (Event.requireSource ∈ cliEvents w processArgv ↔ SourceMode w)
      ∧ (Event.requireCompiled ∈ cliEvents w processArgv ↔ ¬ SourceMode w)
      ∧ (∀ ctx, Event.startSource ctx ∈ cliEvents w processArgv →
          SourceMode w ∧ ctx.argv = some processArgv)
      ∧ (∀ ctx, Event.startCompiled ctx ∈ cliEvents w processArgv →
          ¬ SourceMode w ∧ ctx.argv = some processArgv)
      ∧ (SourceMode w → w.loadSource = .ok () →
          ∃ ctx, Event.startSource ctx ∈ cliEvents w processArgv
            ∧ ctx.argv = some processArgv)
      ∧ (¬ SourceMode w → w.loadCompiled = .ok () →
          ∃ ctx, Event.startCompiled ctx ∈ cliEvents w processArgv
            ∧ ctx.argv = some processArgv)
      ∧ Event.tabtabStart ∉ cliEvents w processArgv)
    ∧ (w.command = some "completion" →
      Event.tabtabStart ∈ cliEvents w processArgv
      ∧ Event.requireSource ∉ cliEvents w processArgv
      ∧ Event.requireCompiled ∉ cliEvents w processArgv
      ∧ (∀ ctx, Event.startSource ctx ∉ cliEvents w processArgv)
      ∧ (∀ ctx, Event.startCompiled ctx ∉ cliEvents w processArgv)) := by
  obtain ⟨g1, g2, g3, g4, g5⟩ := guardedPrepareEvents_not_dispatch w
  rw [cliEvents_eq]
  simp only [List.mem_append, g1, g2, g3, g4, g5, false_or]
  unfold dispatchTrace SourceMode dispatchContext
  constructor
  · intro hc
    rcases h1 : w.srcExists <;> rcases h2 : w.wantsCompiled <;>
      rcases h3 : w.loadSource with e | _ <;> rcases h4 : w.loadCompiled with e2 | _ <;>
      simp [hc]
  · intro hc
    simp [hc]

/-- Witness for C8: a source tree without `--compiled` selects the source entry point,
started with the argument vector. -/
theorem cli_mode_selection_witness :
    Event.requireSource ∈
      cliEvents { sampleWorld with srcExists := true } ["node", "weex", "compile"]
    ∧ ∃ ctx, Event.startSource ctx ∈
        cliEvents { sampleWorld with srcExists := true } ["node", "weex", "compile"]
      ∧ ctx.argv = some ["node", "weex", "compile"] :=
  have h := (cli_mode_selection { sampleWorld with srcExists := true }
    ["node", "weex", "compile"]).1 (by decide)
  ⟨h.1.mpr ⟨rfl, rfl⟩, h.2.2.2.2.1 ⟨rfl, rfl⟩ rfl⟩

end Cli

end WeexToolkit
